import Mathlib

/-!
Verification development for the integrations repository's core subsystems:
the Redis-backed workflow queue (`app/queue/workflow_queue.py`), the durable
retry queue (`app/queue/retry_queue.py`) and the tiered memory manager
(`app/memory_manager.py`).

Modelling conventions:
* Python JSON-like values (dict / list / str / int / bool / None) are the
  inductive type `Json`; a Python `Dict[str, Any]` is an association list
  `Dict` kept in insertion order, exactly as CPython dicts are.
* Timestamps (`datetime.utcnow()`, isoformat strings) are naturals counting
  minutes; `timedelta(minutes=m)` is addition.  Comparisons between
  isoformat strings in the source are comparisons of these naturals.
* `uuid.uuid4()` results are passed to the operations as explicit `id`
  arguments (freshness is a hypothesis where a claim needs it).
* Redis primitives (`hset`, `zadd`, `zrange`, `sadd`, ...) are modelled as
  the corresponding finite-map / sorted-set operations on association lists.
-/

namespace Integrations

/-- JSON-like Python values. -/
inductive Json where
  | null : Json
  | bool : Bool → Json
  | num : Int → Json
  | str : String → Json
  | arr : List Json → Json
  | obj : List (String × Json) → Json
deriving Repr

/-- A Python `Dict[str, Any]`, in insertion order. -/
abbrev Dict := List (String × Json)

/-- `d.get(k)` / `d[k]` lookup: first binding wins (bindings are unique in a
real dict; our operations keep them unique). -/
def lookupKey (d : Dict) (k : String) : Option Json :=
  match d.find? (fun kv => kv.1 == k) with
  | some kv => some kv.2
  | none => none

/-- `k in d` for a Python dict. -/
def hasKey (d : Dict) (k : String) : Bool :=
  (lookupKey d k).isSome

/-- Python `d[k] = v`: replaces the value in place if the key exists,
appends a new binding otherwise. -/
def setKey : Dict → String → Json → Dict
  | [], k, v => [(k, v)]
  | (k', v') :: rest, k, v =>
      if k' == k then (k, v) :: rest else (k', v') :: setKey rest k v

/-! ## Workflow queue (`app/queue/workflow_queue.py`)

State of the three Redis keys used by `WorkflowQueue`:
`workflow:queue` (a sorted set of task ids scored by priority),
`workflow:results` (a hash from task id to the JSON task record) and
`workflow:processing` (a set of task ids). -/

/-- The task record built by `WorkflowQueue.enqueue` and mutated by
`dequeue` / `complete`. -/
structure WTask where
  id : String
  type : String
  data : Json
  priority : Int
  dependencies : List String
  status : String
  created_at : Nat
  attempts : Nat
  started_at : Option Nat := none
  completed_at : Option Nat := none
  result : Option Json := none
  error : Option String := none
deriving Repr

/-- The Redis state touched by `WorkflowQueue`. -/
structure WQState where
  queue : List (String × Int) := []
  results : List (String × WTask) := []
  processing : List String := []
deriving Repr

namespace WQState

/-- `zadd key {member: score}`: insert the member or update its score. -/
def zadd : List (String × Int) → String → Int → List (String × Int)
  | [], m, s => [(m, s)]
  | (m', s') :: rest, m, s =>
      if m' == m then (m, s) :: rest else (m', s') :: zadd rest m s

/-- `zrem`: remove a member from the sorted set. -/
def zrem (z : List (String × Int)) (m : String) : List (String × Int) :=
  z.filter (fun ms => ms.1 != m)

/-- `zrange(key, -1, -1)`: the member of highest rank, i.e. the member with
the greatest score, ties broken by the lexicographically greatest member
(Redis sorted-set order). -/
def zrangeLast (z : List (String × Int)) : Option String :=
  z.foldl
    (fun best ms =>
      match best with
      | none => some ms
      | some b =>
          if ms.2 > b.2 || (ms.2 == b.2 && ms.1 > b.1) then some ms else some b)
    (none : Option (String × Int)) |>.map (·.1)

/-- `hset results_key task_id task`. -/
def hset : List (String × WTask) → String → WTask → List (String × WTask)
  | [], k, t => [(k, t)]
  | (k', t') :: rest, k, t =>
      if k' == k then (k, t) :: rest else (k', t') :: hset rest k t

/-- `hget results_key task_id`. -/
def hget (h : List (String × WTask)) (k : String) : Option WTask :=
  match h.find? (fun kt => kt.1 == k) with
  | some kt => some kt.2
  | none => none

/-- `sadd processing_key task_id`. -/
def sadd (s : List String) (x : String) : List String :=
  if s.contains x then s else s ++ [x]

/-- `srem processing_key task_id`. -/
def srem (s : List String) (x : String) : List String :=
  s.filter (fun y => y != x)

end WQState

namespace WorkflowQueue

/-- `WorkflowQueue.enqueue(workflow_type, data, priority=0, dependencies=None)`.
The fresh `uuid4` task id and the current time are explicit arguments.
Returns the updated Redis state and the task id. -/
def enqueue (s : WQState) (workflow_type : String) (data : Json)
    (priority : Int := 0) (dependencies : Option (List String) := none)
    (task_id : String := "") (now : Nat := 0) : WQState × String :=
  let task : WTask :=
    { id := task_id
      type := workflow_type
      data := data
      priority := priority
      dependencies := dependencies.getD []
      status := "pending"
      created_at := now
      attempts := 0 }
  let results := WQState.hset s.results task_id task
  let queue := WQState.zadd s.queue task_id priority
  ({ s with results := results, queue := queue }, task_id)

/-- `WorkflowQueue.dequeue()`: pop the highest-priority task, mark it
`processing` and move it to the processing set.  No dependency check is
performed anywhere in this function. -/
def dequeue (s : WQState) (now : Nat) : WQState × Option WTask :=
  match WQState.zrangeLast s.queue with
  | none => (s, none)
  | some task_id =>
      match WQState.hget s.results task_id with
      | none => (s, none)
      | some task =>
          let task := { task with status := "processing", started_at := some now }
          let results := WQState.hset s.results task_id task
          let queue := WQState.zrem s.queue task_id
          let processing := WQState.sadd s.processing task_id
          ({ s with results := results, queue := queue, processing := processing },
            some task)

/-- `WorkflowQueue.complete(task_id, result, error=None)`. -/
def complete (s : WQState) (task_id : String) (result : Json)
    (error : Option String := none) (now : Nat := 0) : WQState :=
  match WQState.hget s.results task_id with
  | none => s
  | some task =>
      let task :=
        { task with
          status := if error.isSome then "failed" else "completed"
          completed_at := some now
          result := some result
          error := error }
      { s with
        results := WQState.hset s.results task_id task
        processing := WQState.srem s.processing task_id }

/-- `WorkflowQueue.get_status(task_id)`. -/
def get_status (s : WQState) (task_id : String) : Option WTask :=
  WQState.hget s.results task_id

end WorkflowQueue

/-! ## Retry queue (`app/queue/retry_queue.py`) -/

/-- The domain errors of `app/errors.py` raised by the retry queue.  Note
that `app/errors.py` defines no `UnregisteredOperationError` (nor
`UnregisteredTaskError`) class: an unregistered operation name surfaces as
`QueueError`. -/
inductive AppError where
  | queueError (msg : String)
  | retryExhaustedError (msg : String)
deriving Repr, DecidableEq

/-- Registered retry handlers (`self.callbacks`): operation name → async
handler.  A handler takes the operation's data and either returns a result
or fails with the raised exception's message. -/
abbrev Callbacks := List (String × (Dict → Except String Json))

/-- The operation record built by `enqueue_failed_operation` and mutated by
`_execute_retry`. -/
structure Operation where
  id : String
  name : String
  data : Dict
  error : String
  attempt : Nat
  max_attempts : Nat
  next_retry_at : Nat
  created_at : Nat
  last_attempt : Nat
  last_error : Option String := none
deriving Repr

/-- An immutable dead-letter record: the full operation plus the final
error and the terminal `failed_at` timestamp
(`RetryQueue._store_dead_letter`). -/
structure DeadLetter where
  op : Operation
  final_error : String
  failed_at : Nat
deriving Repr

/-- State of a `RetryQueue` instance: `self.pending_tasks` (the in-memory
active set, a dict keyed by operation id), the durable per-operation JSON
files under `storage_path` (`disk`), and the dead-letter records written to
the separate `dead_letters` sub-directory. -/
structure RQState where
  pending_tasks : List Operation := []
  disk : List Operation := []
  dead_letters : List DeadLetter := []
deriving Repr

namespace RetryQueue

/-- Dict/file lookup by operation id. -/
def findOp (l : List Operation) (id : String) : Option Operation :=
  l.find? (fun op => op.id == id)

/-- `self.pending_tasks[op_id] = op` / writing `{op_id}.json`: upsert by id
keeping position, append if new. -/
def setOp : List Operation → Operation → List Operation
  | [], op => [op]
  | op' :: rest, op =>
      if op'.id == op.id then op :: rest else op' :: setOp rest op

/-- `del self.pending_tasks[op_id]` / `os.remove("{op_id}.json")`. -/
def removeOp (l : List Operation) (id : String) : List Operation :=
  l.filter (fun op => op.id != id)

/-- `data.get("_attempt", 0)`.  The code only ever writes natural attempt
counters into this key; a missing or non-numeric value reads as 0. -/
def getAttempt (data : Dict) : Nat :=
  match lookupKey data "_attempt" with
  | some (Json.num (Int.ofNat n)) => n
  | _ => 0

/-- `operation_name in self.callbacks`. -/
def hasHandler (cbs : Callbacks) (name : String) : Bool :=
  (cbs.find? (fun c => c.1 == name)).isSome

/-- `self.callbacks[operation_name](data)` inside `_execute_retry`'s `try`
block: a missing handler raises `KeyError`, which the surrounding
`except Exception` treats as a failed attempt. -/
def callCallback (cbs : Callbacks) (name : String) (data : Dict) :
    Except String Json :=
  match cbs.find? (fun c => c.1 == name) with
  | some c => c.2 data
  | none => .error ("KeyError: " ++ name)

/-- The operation record that `enqueue_failed_operation` builds: when
`next_retry_at` is omitted it is computed by exponential backoff
(`backoff_minutes = 5 * 3 ** data.get("_attempt", 0)`), and the attempt
counter continues from the payload's `_attempt` marker. -/
def newOperation (operation_name : String) (data : Dict) (error : String)
    (max_attempts : Nat) (next_retry_at : Option Nat)
    (operation_id : String) (now : Nat) : Operation :=
  let nra :=
    match next_retry_at with
    | some t => t
    | none =>
        let attempt_count := getAttempt data
        let backoff_minutes := 5 * 3 ^ attempt_count
        now + backoff_minutes
  { id := operation_id
    name := operation_name
    data := data
    error := error
    attempt := getAttempt data + 1
    max_attempts := max_attempts
    next_retry_at := nra
    created_at := now
    last_attempt := now }

/-- `RetryQueue.enqueue_failed_operation(operation_name, data, error,
max_attempts=3, next_retry_at=None)`.  The fresh `uuid4` operation id and
the clock reading are explicit arguments.  An unregistered name raises
`QueueError` before any record is created; otherwise the operation is
persisted to disk, added to the active set and its id returned. -/
def enqueue_failed_operation (cbs : Callbacks) (s : RQState)
    (operation_name : String) (data : Dict) (error : String)
    (max_attempts : Nat := 3) (next_retry_at : Option Nat := none)
    (operation_id : String := "") (now : Nat := 0) :
    Except AppError (RQState × String) :=
  if ¬ hasHandler cbs operation_name then
    .error (.queueError ("Unregistered operation: " ++ operation_name))
  else
    let operation : Operation :=
      newOperation operation_name data error max_attempts next_retry_at
        operation_id now
    .ok ({ s with
            disk := setOp s.disk operation
            pending_tasks := setOp s.pending_tasks operation },
          operation_id)

/-- Outcome of one `_execute_retry` call: the handler succeeded (operation
removed), the handler failed with attempts left (operation rescheduled), or
the handler failed with the budget exhausted (`RetryExhaustedError`
raised). -/
inductive RetryOutcome where
  | success (result : Json)
  | rescheduled (errMsg : String)
  | exhausted (err : AppError)
deriving Repr

/-- `RetryQueue._execute_retry(operation)`.  Before invoking the handler the
code writes the current attempt number into `data["_attempt"]` and updates
`last_attempt`; on success it removes the operation from memory and disk; on
failure it either (attempt ≥ max_attempts) removes the operation, writes a
dead letter and raises `RetryExhaustedError`, or (attempt < max_attempts)
increments the attempt, recomputes `next_retry_at` by exponential backoff
seeded with the pre-increment attempt number, and persists the update. -/
def executeRetry (cbs : Callbacks) (s : RQState) (operation : Operation)
    (now : Nat) : RQState × RetryOutcome :=
  let data := setKey operation.data "_attempt" (Json.num operation.attempt)
  let operation := { operation with data := data, last_attempt := now }
  match callCallback cbs operation.name data with
  | .ok result =>
      ({ s with
          pending_tasks := removeOp s.pending_tasks operation.id
          disk := removeOp s.disk operation.id },
        .success result)
  | .error e =>
      if operation.attempt ≥ operation.max_attempts then
        ({ s with
            pending_tasks := removeOp s.pending_tasks operation.id
            disk := removeOp s.disk operation.id
            dead_letters := s.dead_letters ++
              [{ op := operation, final_error := e, failed_at := now }] },
          .exhausted (.retryExhaustedError
            ("Operation " ++ operation.name ++ " failed after " ++
              toString operation.max_attempts ++ " attempts")))
      else
        let backoff_minutes := 5 * 3 ^ operation.attempt
        let next_retry_at := now + backoff_minutes
        let operation :=
          { operation with
            attempt := operation.attempt + 1
            next_retry_at := next_retry_at
            last_error := some e }
        ({ s with
            disk := setOp s.disk operation
            pending_tasks := setOp s.pending_tasks operation },
          .rescheduled e)

/-- The operation record after `_execute_retry` reschedules a failed
attempt (helper for stating lemmas about `executeRetry`): `_attempt`
written into the payload, `last_attempt` updated, attempt incremented,
`next_retry_at` recomputed with backoff `5 * 3 ^ old_attempt`, the error
recorded. -/
def reschedOp (op : Operation) (now : Nat) (e : String) : Operation :=
  { op with
    data := setKey op.data "_attempt" (Json.num op.attempt)
    last_attempt := now
    attempt := op.attempt + 1
    next_retry_at := now + 5 * 3 ^ op.attempt
    last_error := some e }

/-- The operation snapshot stored into a dead letter (payload's `_attempt`
updated and `last_attempt` stamped, as `_execute_retry` mutates it before
invoking the handler). -/
def deadOp (op : Operation) (now : Nat) : Operation :=
  { op with
    data := setKey op.data "_attempt" (Json.num op.attempt)
    last_attempt := now }

/-- `RetryQueue._load_operations()`: read every active operation file (the
dead-letter sub-directory is a separate location, `s.disk` holds only active
records); an operation whose `next_retry_at` is not yet reached is loaded
unchanged, one already past due is rescheduled for immediate retry
(`next_retry_at` set to now). -/
def loadOperations (s : RQState) (now : Nat) : RQState :=
  let loaded := s.disk.map (fun op =>
    if now < op.next_retry_at then op
    else { op with next_retry_at := now })
  { s with pending_tasks := loaded.foldl setOp s.pending_tasks }

/-- The guard of the processing loop in `_process_retries`: the operations
whose `next_retry_at` has passed — only these are handed to
`_execute_retry` on a tick. -/
def readyOperations (s : RQState) (now : Nat) : List Operation :=
  s.pending_tasks.filter (fun op => op.next_retry_at ≤ now)

/-- One iteration of the `_process_retries` loop body: execute every ready
operation in order. -/
def processTick (cbs : Callbacks) (s : RQState) (now : Nat) : RQState :=
  (readyOperations s now).foldl (fun s' op => (executeRetry cbs s' op now).1) s

/-- Start of `_process_retries`: operations are loaded from disk only when
the in-memory active set is empty (the restart situation). -/
def processorStart (s : RQState) (now : Nat) : RQState :=
  if s.pending_tasks.isEmpty then loadOperations s now else s

/-- Environment steps driving a `RetryQueue`: a caller submission (with its
fresh uuid and clock reading), one background execution of an active
operation, or a processor (re)start loading from disk. -/
inductive RQStep where
  | submit (name : String) (data : Dict) (error : String)
      (max_attempts : Nat) (next_retry_at : Option Nat)
      (id : String) (now : Nat)
  | execute (id : String) (now : Nat)
  | load (now : Nat)

/-- Apply one step.  A rejected submission (`QueueError`) leaves the state
unchanged; executing an id not in the active set is a no-op (the loop only
iterates `pending_tasks`). -/
def applyStep (cbs : Callbacks) (s : RQState) : RQStep → RQState
  | .submit name data err maxA nra id now =>
      match enqueue_failed_operation cbs s name data err maxA nra id now with
      | .ok (s', _) => s'
      | .error _ => s
  | .execute id now =>
      match findOp s.pending_tasks id with
      | some op => (executeRetry cbs s op now).1
      | none => s
  | .load now => loadOperations s now

/-- Apply a whole trace of steps. -/
def applyTrace (cbs : Callbacks) (s : RQState) (trace : List RQStep) : RQState :=
  trace.foldl (applyStep cbs) s

end RetryQueue

/-! ## JSON serialization helpers used by the memory manager

`LongTermMemory.store` fingerprints values with
`hashlib.md5(json.dumps(value, sort_keys=True).encode()).hexdigest()`.
The md5 hex digest itself is kept abstract (every theorem below holds for
an arbitrary function `md5hex : String → String`, i.e. only determinism of
the digest is used); the canonical serialization with sorted keys is
modelled faithfully. -/

/-- Insert a field into a key-sorted field list (helper for
`sort_keys=True`). -/
def insertField (kv : String × Json) :
    List (String × Json) → List (String × Json)
  | [] => [kv]
  | kv' :: rest =>
      if kv.1 ≤ kv'.1 then kv :: kv' :: rest else kv' :: insertField kv rest

/-- Sort object fields by key (insertion sort). -/
def sortFieldsByKey (fs : List (String × Json)) : List (String × Json) :=
  fs.foldr insertField []

mutual

/-- Recursively sort every object's fields by key, as
`json.dumps(..., sort_keys=True)` serializes them. -/
def sortJson : Json → Json
  | .obj fs => .obj (sortFieldsByKey (sortJsonFields fs))
  | .arr xs => .arr (sortJsonList xs)
  | j => j

def sortJsonList : List Json → List Json
  | [] => []
  | x :: xs => sortJson x :: sortJsonList xs

def sortJsonFields : List (String × Json) → List (String × Json)
  | [] => []
  | (k, v) :: fs => (k, sortJson v) :: sortJsonFields fs

end

mutual

/-- Serialize a JSON value in `json.dumps` style (fields in list order;
string escaping is not modelled — the digest of the result is abstract
anyway). -/
def Json.dumps : Json → String
  | .null => "null"
  | .bool b => cond b "true" "false"
  | .num n => toString n
  | .str s => "\x22" ++ s ++ "\x22"
  | .arr xs => "[" ++ Json.dumpsList xs ++ "]"
  | .obj fs => "\x7b" ++ Json.dumpsFields fs ++ "\x7d"

def Json.dumpsList : List Json → String
  | [] => ""
  | [x] => Json.dumps x
  | x :: xs => Json.dumps x ++ ", " ++ Json.dumpsList xs

def Json.dumpsFields : List (String × Json) → String
  | [] => ""
  | [(k, v)] => "\x22" ++ k ++ "\x22: " ++ Json.dumps v
  | (k, v) :: fs => "\x22" ++ k ++ "\x22: " ++ Json.dumps v ++ ", " ++
      Json.dumpsFields fs

end

/-- `json.dumps(value, sort_keys=True)`. -/
def Json.dumpsSorted (j : Json) : String :=
  Json.dumps (sortJson j)

mutual

/-- Whether a field named `f` occurs anywhere in a JSON value (at any
nesting depth). -/
def Json.containsField (f : String) : Json → Bool
  | .obj fs => Json.containsFieldFields f fs
  | .arr xs => Json.containsFieldList f xs
  | _ => false

def Json.containsFieldList (f : String) : List Json → Bool
  | [] => false
  | x :: xs => Json.containsField f x || Json.containsFieldList f xs

def Json.containsFieldFields (f : String) : List (String × Json) → Bool
  | [] => false
  | (k, v) :: fs =>
      k == f || Json.containsField f v || Json.containsFieldFields f fs

end

/-! ## Tiered memory manager (`app/memory_manager.py`) -/

/-- A row of the `memories` table (`id SERIAL PRIMARY KEY, client_id,
memory_type, key, value, source_analysis, created_at`). -/
structure LTRow where
  id : Nat
  client_id : String
  memory_type : String
  key : String
  value : Dict
  source_analysis : String
  created_at : Nat
deriving Repr

/-- The PostgreSQL backend of `LongTermMemory`: the `memories` rows in
insertion order, the next serial id, and the availability flag set by
`initialize`. -/
structure LTDb where
  available : Bool := true
  rows : List LTRow := []
  nextId : Nat := 0
deriving Repr

/-- Row order used for `ORDER BY created_at ASC`: by `created_at`, ties
resolved deterministically by the serial id (PostgreSQL leaves tie order
unspecified; the serial id is the insertion order). -/
def rowLE (a b : LTRow) : Bool :=
  a.created_at < b.created_at || (a.created_at == b.created_at && a.id ≤ b.id)

/-- Insertion into a `rowLE`-sorted list. -/
def insertRow (r : LTRow) : List LTRow → List LTRow
  | [] => [r]
  | x :: xs => if rowLE r x then r :: x :: xs else x :: insertRow r xs

/-- Sort rows by `(created_at, id)` ascending (insertion sort). -/
def sortRowsAsc (l : List LTRow) : List LTRow :=
  l.foldr insertRow []

namespace LongTermMemory

/-- The denylist check of `LongTermMemory.store`: top-level fields
`raw_prompt` / `scraper_payload` mark raw data. -/
def rejectsRaw (value : Dict) : Bool :=
  hasKey value "raw_prompt" || hasKey value "scraper_payload"

/-- The dedup key stored in the `key` column: `f"{key}_{insight_hash}"`. -/
def fullKey (md5hex : String → String) (key : String) (value : Dict) : String :=
  key ++ "_" ++ md5hex (Json.dumpsSorted (Json.obj value))

/-- The eviction step of `LongTermMemory.store`: when the client's row
count is at or above the cap, delete the 10 (`LIMIT 10`) rows of that
client with the smallest `created_at` (`ORDER BY created_at ASC`; ties
resolved deterministically by serial id, which PostgreSQL leaves
unspecified). -/
def evictIfFull (cap : Nat) (db : LTDb) (client_id : String) : LTDb :=
  if (db.rows.filter (fun r => r.client_id == client_id)).length ≥ cap then
    { db with rows := db.rows.filter (fun r =>
        ¬ (((sortRowsAsc (db.rows.filter
            (fun r => r.client_id == client_id))).map (·.id)).take
          10).contains r.id) }
  else db

/-- The final `INSERT ... ON CONFLICT (client_id, memory_type, key)
DO UPDATE` of `LongTermMemory.store` (`key_full` is `f"{key}_{hash}"`,
`src` the original key stored as `source_analysis`). -/
def upsertInsight (db : LTDb) (client_id key_full : String) (value : Dict)
    (src : String) (now : Nat) : LTDb :=
  if db.rows.any (fun r =>
      r.client_id == client_id && r.memory_type == "insight" &&
        r.key == key_full) then
    { db with rows := db.rows.map (fun r =>
        if r.client_id == client_id && r.memory_type == "insight" &&
            r.key == key_full
        then { r with value := value } else r) }
  else
    { db with
        rows := db.rows ++
          [{ id := db.nextId
             client_id := client_id
             memory_type := "insight"
             key := key_full
             value := value
             source_analysis := src
             created_at := now }]
        nextId := db.nextId + 1 }

/-- `LongTermMemory.store(client_id, key, value)` against the `memories`
table.  `cap` is `config.MAX_MEMORIES_PER_CLIENT` (default 1000,
overridable by environment).  Steps, in source order: availability check;
raw-data denylist check; fingerprint; duplicate check on
`(client_id, key‖hash)`; FIFO eviction when the client's row count is at or
above the cap; upsert. -/
def store (md5hex : String → String) (cap : Nat) (db : LTDb)
    (client_id key : String) (value : Dict) (now : Nat) : LTDb :=
  if ¬ db.available then db
  else if rejectsRaw value then db
  else if db.rows.any (fun r => r.client_id == client_id &&
      r.key == fullKey md5hex key value) then db
  else
    upsertInsight (evictIfFull cap db client_id) client_id
      (fullKey md5hex key value) value key now

/-- `LongTermMemory.search(client_id, memory_type)`: matching rows ordered
`created_at DESC` (ties by id descending), capped at 50. -/
def search (db : LTDb) (client_id memory_type : String) : List LTRow :=
  if ¬ db.available then []
  else
    ((sortRowsAsc (db.rows.filter (fun r =>
        r.client_id == client_id && r.memory_type == memory_type))).reverse).take 50

end LongTermMemory

/-- Python `l[-n:]`: the last `n` elements, except that `n = 0` yields the
whole list (`l[-0:] = l[0:]`). -/
def lastSlice (l : List α) (n : Nat) : List α :=
  if n == 0 then l else l.drop (l.length - n)

/-- One episodic memory entry (`EpisodicMemory.store`'s `entry` dict). -/
structure EpEntry where
  timestamp : Nat
  analysis_type : String
  input_summary : Dict
  output_summary : Dict
  insights : List String
  input_keys : List String
  output_keys : List String
deriving Repr

/-- `EpisodicMemory.memories`: client id → entry list, insertion order. -/
abbrev EpMemories := List (String × List EpEntry)

namespace EpisodicMemory

/-- Entries of a client (`self.memories.get(client_id, [])`). -/
def getEntries (mems : EpMemories) (client_id : String) : List EpEntry :=
  match mems.find? (fun ce => ce.1 == client_id) with
  | some ce => ce.2
  | none => []

/-- `self.memories[client_id] = entries` (upsert). -/
def setEntries : EpMemories → String → List EpEntry → EpMemories
  | [], cid, es => [(cid, es)]
  | (cid', es') :: rest, cid, es =>
      if cid' == cid then (cid, es) :: rest
      else (cid', es') :: setEntries rest cid es

/-- `EpisodicMemory._summarize_input`: list values become a
`"List with N items"` descriptor, dict values a `"Dict with N keys"`
descriptor, strings longer than 100 characters are truncated to their first
100 characters plus `"..."`, and every other value is kept verbatim. -/
def summarizeInput (input_data : Dict) : Dict :=
  input_data.map (fun kv =>
    match kv.2 with
    | .arr xs => (kv.1, .str ("List with " ++ toString xs.length ++ " items"))
    | .obj fs => (kv.1, .str ("Dict with " ++ toString fs.length ++ " keys"))
    | .str s =>
        if s.length > 100 then (kv.1, .str (s.take 100 ++ "..."))
        else (kv.1, Json.str s)
    | v => (kv.1, v))

/-- `EpisodicMemory._summarize_output` delegates to `_summarize_input`. -/
def summarizeOutput (output_data : Dict) : Dict :=
  summarizeInput output_data

/-- `EpisodicMemory.store(client_id, analysis_type, input_data, output_data,
insights)`.  `capM` is `config.MAX_EPISODIC_MEMORIES` (default 100). -/
def store (capM : Nat) (mems : EpMemories) (client_id analysis_type : String)
    (input_data output_data : Dict) (insights : List String) (now : Nat) :
    EpMemories :=
  let entry : EpEntry :=
    { timestamp := now
      analysis_type := analysis_type
      input_summary := summarizeInput input_data
      output_summary := summarizeOutput output_data
      insights := insights
      input_keys := input_data.map (·.1)
      output_keys := output_data.map (·.1) }
  let entries := getEntries mems client_id ++ [entry]
  let entries := if entries.length > capM then lastSlice entries capM else entries
  setEntries mems client_id entries

/-- `EpisodicMemory.get_summary(client_id, max_entries=10)`: the most
recent `max_entries` entries, compressed to timestamp, analysis type, top-3
insights and the input/output size descriptors. -/
def get_summary (mems : EpMemories) (client_id : String)
    (max_entries : Nat := 10) : List Json :=
  match mems.find? (fun ce => ce.1 == client_id) with
  | none => []
  | some ce =>
      (lastSlice ce.2 max_entries).map (fun e =>
        .obj [("when", .num e.timestamp),
              ("analysis", .str e.analysis_type),
              ("key_insights", .arr ((e.insights.take 3).map Json.str)),
              ("input_size", .num e.input_keys.length),
              ("output_size", .num e.output_keys.length)])

end EpisodicMemory

/-- The state behind a `MemoryManager`: the short-term Redis keys, the
long-term `memories` table and the in-process episodic log. -/
structure MMState where
  shortAvailable : Bool := true
  shortTerm : List (String × Dict) := []
  lt : LTDb := {}
  ep : EpMemories := []
deriving Repr

namespace MemoryManager

/-- `ShortTermMemory._make_key`. -/
def makeKey (client_id key : String) : String :=
  "memory:" ++ client_id ++ ":" ++ key

/-- Short-term upsert by composite Redis key (`setex`; expiry itself is not
modelled — no claim depends on it). -/
def setShort : List (String × Dict) → String → Dict → List (String × Dict)
  | [], k, v => [(k, v)]
  | (k', v') :: rest, k, v =>
      if k' == k then (k, v) :: rest else (k', v') :: setShort rest k v

/-- `MemoryManager.store_short_term` → `ShortTermMemory.store`: silently
no-ops when Redis is unavailable. -/
def store_short_term (mm : MMState) (client_id key : String) (value : Dict) :
    MMState :=
  if ¬ mm.shortAvailable then mm
  else { mm with shortTerm := setShort mm.shortTerm (makeKey client_id key) value }

/-- `MemoryManager.store_long_term(client_id, key, value, source_analysis)`:
tags the value with `_source` when a source analysis is given, then
delegates to `LongTermMemory.store`. -/
def store_long_term (md5hex : String → String) (cap : Nat) (mm : MMState)
    (client_id key : String) (value : Dict) (source_analysis : String)
    (now : Nat) : MMState :=
  let value :=
    if source_analysis != "" then setKey value "_source" (.str source_analysis)
    else value
  { mm with lt := LongTermMemory.store md5hex cap mm.lt client_id key value now }

/-- `MemoryManager.store_episodic`. -/
def store_episodic (capM : Nat) (mm : MMState)
    (client_id analysis_type : String) (input_data output_data : Dict)
    (insights : List String) (now : Nat) : MMState :=
  { mm with ep := (EpisodicMemory.store capM mm.ep client_id analysis_type
      input_data output_data insights now) }

/-- `MemoryManager.get_ai_context(client_id)`: the episodic summary plus
(at most 5 of) the newest-first long-term insights, each rendered as the
`{key, value, created_at}` dict that `LongTermMemory.search` builds. -/
def get_ai_context (mm : MMState) (client_id : String) : Json :=
  let recent :=
    if mm.lt.available then
      ((LongTermMemory.search mm.lt client_id "insight").take 5).map (fun r =>
        Json.obj [("key", .str r.key), ("value", .obj r.value),
                  ("created_at", .num r.created_at)])
    else []
  .obj [("episodic_summary", .arr (EpisodicMemory.get_summary mm.ep client_id 10)),
        ("recent_insights", .arr recent)]

end MemoryManager

/-- A store operation against the memory manager (the write surface of the
façade). -/
inductive MMOp where
  | storeShortTerm (client_id key : String) (value : Dict)
  | storeLongTerm (client_id key : String) (value : Dict)
      (source_analysis : String) (now : Nat)
  | storeEpisodic (client_id analysis_type : String)
      (input_data output_data : Dict) (insights : List String) (now : Nat)

/-- Apply one store operation. -/
def applyMMOp (md5hex : String → String) (cap capM : Nat) (mm : MMState) :
    MMOp → MMState
  | .storeShortTerm cid key value =>
      MemoryManager.store_short_term mm cid key value
  | .storeLongTerm cid key value src now =>
      MemoryManager.store_long_term md5hex cap mm cid key value src now
  | .storeEpisodic cid at' input output insights now =>
      MemoryManager.store_episodic capM mm cid at' input output insights now

/-- Apply a sequence of store operations. -/
def applyMMOps (md5hex : String → String) (cap capM : Nat) (mm : MMState)
    (ops : List MMOp) : MMState :=
  ops.foldl (applyMMOp md5hex cap capM) mm

/-- The per-value transformation that claim C10 describes for episodic
summaries (spec side of the refinement check against
`EpisodicMemory._summarize_input`). -/
def claimSummarizeValue : Json → Json
  | .arr items => .str ("List with " ++ toString items.length ++ " items")
  | .obj fields => .str ("Dict with " ++ toString fields.length ++ " keys")
  | .str s => if 100 < s.length then .str (s.take 100 ++ "...") else .str s
  | v => v

/-! ## Auxiliary definitions for stating the claims -/

/-- A one-handler callback table whose handler always raises (shared by
several witnesses). -/
def failingCallbacks : Callbacks := [("op", fun _ => Except.error "boom")]

/-- A persisted operation already past due at time 5 (witness data). -/
def opDue : Operation :=
  { id := "a", name := "op", data := [], error := "e", attempt := 1,
    max_attempts := 3, next_retry_at := 3, created_at := 0, last_attempt := 0 }

/-- A persisted operation not yet due at time 5 (witness data). -/
def opFuture : Operation :=
  { id := "b", name := "op", data := [], error := "e", attempt := 2,
    max_attempts := 3, next_retry_at := 10, created_at := 0, last_attempt := 0 }

/-- A freshly restarted retry-queue state: empty active set, two operations
on disk (witness data). -/
def rqDiskState : RQState :=
  { pending_tasks := [], disk := [opDue, opFuture], dead_letters := [] }

/-- The side condition under which the `attempt ≤ max_attempts` invariant
holds for a submission: the caller's payload must not carry an `_attempt`
counter at or beyond `max_attempts` (fresh submissions have none). -/
def RetryQueue.SubmitOk : RetryQueue.RQStep → Prop
  | .submit _ data _ maxA _ _ _ => RetryQueue.getAttempt data + 1 ≤ maxA
  | _ => True

/-- No submission in a step reuses a given operation id (uuid freshness). -/
def RetryQueue.NotSubmitId (id : String) : RetryQueue.RQStep → Prop
  | .submit _ _ _ _ _ id' _ => id' ≠ id
  | _ => True

/-- The `attempt ≤ max_attempts` invariant on active set and disk. -/
def RQInv (s : RQState) : Prop :=
  (∀ op ∈ s.pending_tasks, op.attempt ≤ op.max_attempts) ∧
  (∀ op ∈ s.disk, op.attempt ≤ op.max_attempts)

/-- Absence of an id from both the active set and disk. -/
def IdGone (s : RQState) (id : String) : Prop :=
  RetryQueue.findOp s.pending_tasks id = none ∧
  RetryQueue.findOp s.disk id = none

/-- The long-term table never holds a value with a top-level denylisted
field. -/
def CleanRows (db : LTDb) : Prop :=
  ∀ r ∈ db.rows,
    lookupKey r.value "raw_prompt" = none ∧
    lookupKey r.value "scraper_payload" = none

/-- The memory state after storing one clean insight (witness data). -/
def mmW : MMState :=
  applyMMOps (fun s => s) 1000 100 {}
    [MMOp.storeLongTerm "c" "k" [("insight", Json.str "x")] "" 0]

/-- One `LongTermMemory.store` call's inputs (for stating properties of
call sequences). -/
structure LTCall where
  key : String
  value : Dict
  now : Nat

/-- A sequence of `LongTermMemory.store` calls for one namespace. -/
def storeCalls (md5hex : String → String) (cap : Nat) (db : LTDb)
    (client_id : String) (calls : List LTCall) : LTDb :=
  calls.foldl (fun db c =>
    LongTermMemory.store md5hex cap db client_id c.key c.value c.now) db

/-- The rows that a run of fresh inserts produces, with serial ids starting
at `i`. -/
def mkRows (md5hex : String → String) (client_id : String) :
    Nat → List LTCall → List LTRow
  | _, [] => []
  | i, c :: cs =>
      { id := i, client_id := client_id, memory_type := "insight",
        key := LongTermMemory.fullKey md5hex c.key c.value, value := c.value,
        source_analysis := c.key, created_at := c.now } ::
        mkRows md5hex client_id (i + 1) cs

/-- Twelve distinct-value store calls for one namespace (witness data). -/
def callsW : List LTCall :=
  (List.range 12).map (fun i =>
    { key := "k", value := [("v", Json.num (Int.ofNat i))], now := i })

/-- The thirteenth store call (witness data). -/
def cW : LTCall := { key := "k", value := [("v", Json.num 12)], now := 12 }

/-! ## Helper lemmas -/

theorem findOp_setOp (l : List Operation) (op : Operation) :
    RetryQueue.findOp (RetryQueue.setOp l op) op.id = some op := by
  induction l with
  | nil => simp [RetryQueue.findOp, RetryQueue.setOp]
  | cons op' rest ih =>
      by_cases h : (op'.id == op.id) = true
      · simp [RetryQueue.setOp, RetryQueue.findOp, h]
      · simp only [RetryQueue.setOp, h, Bool.false_eq_true, if_false]
        simpa [RetryQueue.findOp, List.find?_cons, h] using ih

theorem hget_hset (h : List (String × WTask)) (k : String) (t : WTask) :
    WQState.hget (WQState.hset h k t) k = some t := by
  induction h with
  | nil => simp [WQState.hget, WQState.hset]
  | cons kv rest ih =>
      by_cases hk : (kv.1 == k) = true
      · simp [WQState.hset, WQState.hget, hk]
      · simp only [WQState.hset, hk, Bool.false_eq_true, if_false]
        simpa [WQState.hget, List.find?_cons, hk] using ih

/-- `executeRetry` on a failing handler with attempts left: the operation is
rescheduled with an incremented attempt counter and a backoff of
`5 * 3 ^ old_attempt` minutes. -/
theorem executeRetry_fail_reschedule (cbs : Callbacks) (s : RQState)
    (op : Operation) (now : Nat) (e : String)
    (hfail : RetryQueue.callCallback cbs op.name
        (setKey op.data "_attempt" (Json.num op.attempt)) = .error e)
    (hlt : op.attempt < op.max_attempts) :
    RetryQueue.executeRetry cbs s op now =
      ({ s with
          disk := RetryQueue.setOp s.disk (RetryQueue.reschedOp op now e)
          pending_tasks :=
            RetryQueue.setOp s.pending_tasks (RetryQueue.reschedOp op now e) },
        .rescheduled e) := by
  simp [RetryQueue.executeRetry, RetryQueue.reschedOp, hfail,
    Nat.not_le.mpr hlt]

/-- `executeRetry` on a failing handler with the budget exhausted: the
operation is removed from the active set and from disk, one dead letter is
appended, and `RetryExhaustedError` is surfaced. -/
theorem executeRetry_fail_exhaust (cbs : Callbacks) (s : RQState)
    (op : Operation) (now : Nat) (e : String)
    (hfail : RetryQueue.callCallback cbs op.name
        (setKey op.data "_attempt" (Json.num op.attempt)) = .error e)
    (hge : op.max_attempts ≤ op.attempt) :
    RetryQueue.executeRetry cbs s op now =
      ({ s with
          pending_tasks := RetryQueue.removeOp s.pending_tasks op.id
          disk := RetryQueue.removeOp s.disk op.id
          dead_letters := s.dead_letters ++
            [{ op := RetryQueue.deadOp op now, final_error := e,
               failed_at := now }] },
        .exhausted (.retryExhaustedError
          ("Operation " ++ op.name ++ " failed after " ++
            toString op.max_attempts ++ " attempts"))) := by
  simp [RetryQueue.executeRetry, RetryQueue.deadOp, hfail, hge]

theorem enqueue_ok (cbs : Callbacks) (s : RQState) (name : String)
    (data : Dict) (err : String) (maxA : Nat) (nra : Option Nat)
    (opId : String) (now : Nat)
    (h : RetryQueue.hasHandler cbs name = true) :
    RetryQueue.enqueue_failed_operation cbs s name data err maxA nra opId now =
      .ok ({ s with
              disk := RetryQueue.setOp s.disk
                (RetryQueue.newOperation name data err maxA nra opId now)
              pending_tasks := RetryQueue.setOp s.pending_tasks
                (RetryQueue.newOperation name data err maxA nra opId now) },
            opId) := by
  simp [RetryQueue.enqueue_failed_operation, h]

/-! ## Claim theorems -/

/-- Claim C1, evaluated at its failing input: task `"a"` is enqueued and
still `pending`, task `"b"` is enqueued with `dependencies = ["a"]` and
higher priority, yet `dequeue` returns `"b"` and marks it `processing`
while `"a"` has not reached `completed` — `WorkflowQueue.dequeue` never
consults the `dependencies` field. -/
theorem C1_dequeue_ignores_dependencies :
    (let s1 := (WorkflowQueue.enqueue {} "taskA" (Json.obj []) 0 none "a" 0).1
     let s2 := (WorkflowQueue.enqueue s1 "taskB" (Json.obj []) 1
        (some ["a"]) "b" 1).1
     let r := WorkflowQueue.dequeue s2 2
     r.2.map (fun t => (t.id, t.status, t.dependencies)) =
        some ("b", "processing", ["a"]) ∧
     (WorkflowQueue.get_status r.1 "a").map (·.status) = some "pending" ∧
     (WorkflowQueue.get_status r.1 "a").map (·.status) ≠ some "completed") := by
  decide

/-- Claim C2 counterexample: `WorkflowQueue.enqueue` has no handler
registry at all, so enqueueing a task type for which no handler is
registered anywhere does not fail — it creates a `pending` task record and
returns the fresh id, contradicting the claimed unregistered-handler
failure with no record created. -/
theorem C2_counterexample_unregistered_enqueue_succeeds :
    (WorkflowQueue.enqueue {} "scrape_amazon" (Json.obj []) 0 none "t1" 0).2
      = "t1" ∧
    (WorkflowQueue.get_status
        (WorkflowQueue.enqueue {} "scrape_amazon" (Json.obj []) 0 none
          "t1" 0).1 "t1").map (·.status) = some "pending" := by
  decide

/-- Claim C5 counterexample: a reachable state violating
`attempt ≤ max_attempts`.  A single submission with a caller-supplied
payload carrying `_attempt = 5` and `max_attempts = 3` puts an operation
with `attempt = 6 > 3` into the active set, because
`enqueue_failed_operation` sets `attempt = data.get("_attempt", 0) + 1`
without bounding it by `max_attempts`. -/
theorem C5_counterexample_attempt_exceeds_max :
    (RetryQueue.findOp
        (RetryQueue.applyTrace [("op", fun _ => Except.error "x")] {}
          [RetryQueue.RQStep.submit "op" [("_attempt", Json.num 5)] "boom" 3
            none "o1" 0]).pending_tasks "o1").map
        (fun op => (op.attempt, op.max_attempts)) = some (6, 3) ∧
    ¬ (6 ≤ 3) := by
  decide

/-- Claim C7 counterexample: deduplication is keyed on
`(client_id, key‖fingerprint)`, not on `(namespace, fingerprint)`.  Two
`store` calls with identical value content in the same namespace but under
different keys produce two stored records (this holds for any digest
function, since the stored keys differ already in their `key‖` prefix;
here the digest is instantiated with the identity on the canonical
serialization). -/
theorem C7_counterexample_dedup_key_not_fingerprint :
    (LongTermMemory.store (fun s => s) 1000
        (LongTermMemory.store (fun s => s) 1000 {} "c" "a"
          [("insight", Json.str "x")] 0)
        "c" "b" [("insight", Json.str "x")] 1).rows.length = 2 ∧
    (2 : Nat) ≠ 1 := by
  decide

/-- Claim C8 counterexample: with the configured cap set to 12, storing 13
distinct values for one namespace leaves 3 records, not 12 — eviction
deletes the 10 (`LIMIT 10`) oldest rows, not just enough to make room.
The surviving rows are the three newest (serial ids 10, 11, 12), so the
oldest rows are indeed the evicted ones. -/
theorem C8_counterexample_cap_plus_one :
    ((List.range 13).foldl
        (fun db i => LongTermMemory.store (fun s => s) 12 db "c" "k"
          [("v", Json.num (Int.ofNat i))] i) {}).rows.map (·.id) =
      [10, 11, 12] ∧
    ((List.range 13).foldl
        (fun db i => LongTermMemory.store (fun s => s) 12 db "c" "k"
          [("v", Json.num (Int.ofNat i))] i) {}).rows.length ≠ 12 := by
  decide

/-- Claim C9 counterexample: the denylist check of `LongTermMemory.store`
only inspects top-level keys, so a value nesting `raw_prompt` one level
down is accepted, stored, and then surfaces verbatim inside
`get_ai_context`'s `recent_insights` — the returned context does contain a
field matching the raw-payload denylist. -/
theorem C9_counterexample_nested_raw_field :
    Json.containsField "raw_prompt"
      (MemoryManager.get_ai_context
        (applyMMOps (fun s => s) 1000 100 {}
          [MMOp.storeLongTerm "c" "k"
            [("wrap", Json.obj [("raw_prompt", Json.str "SECRET")])] "" 0])
        "c") = true := by
  decide

theorem getEntries_setEntries (mems : EpMemories) (cid : String)
    (es : List EpEntry) :
    EpisodicMemory.getEntries (EpisodicMemory.setEntries mems cid es) cid = es := by
  induction mems with
  | nil => simp [EpisodicMemory.getEntries, EpisodicMemory.setEntries]
  | cons ce rest ih =>
      by_cases h : (ce.1 == cid) = true
      · simp [EpisodicMemory.setEntries, EpisodicMemory.getEntries, h]
      · simp only [EpisodicMemory.setEntries, h, Bool.false_eq_true, if_false]
        simpa [EpisodicMemory.getEntries, List.find?_cons, h] using ih

theorem lastSlice_concat_getLast? (l : List α) (e : α) (n : Nat) :
    (lastSlice (l ++ [e]) n).getLast? = some e := by
  unfold lastSlice
  split
  · exact List.getLast?_concat l
  · rename_i h
    have hn : 1 ≤ n := by
      rcases Nat.eq_zero_or_pos n with h0 | h1
      · exact absurd (by simp [h0]) h
      · exact h1
    have hk : (l ++ [e]).length - n ≤ l.length := by
      simp only [List.length_append, List.length_cons, List.length_nil]
      omega
    rw [List.drop_append_of_le_length hk]
    exact List.getLast?_concat _

/-- Claim C10: episodic summaries replace each list value with a
`"List with N items"` descriptor, each dict value with `"Dict with N keys"`,
and each string longer than 100 characters with its first 100 characters
plus `"..."`; every other value — short strings and non-collection scalars
included — is retained verbatim; and the entry stored by
`EpisodicMemory.store` carries exactly these summaries of its input and
output. -/
theorem C10_summarization (d input_data output_data : Dict)
    (capM : Nat) (mems : EpMemories) (client_id analysis_type : String)
    (insights : List String) (now : Nat) :
    EpisodicMemory.summarizeInput d =
      d.map (fun kv => (kv.1, claimSummarizeValue kv.2)) ∧
    (EpisodicMemory.getEntries
        (EpisodicMemory.store capM mems client_id analysis_type input_data
          output_data insights now) client_id).getLast? =
      some { timestamp := now
             analysis_type := analysis_type
             input_summary := EpisodicMemory.summarizeInput input_data
             output_summary := EpisodicMemory.summarizeInput output_data
             insights := insights
             input_keys := input_data.map (·.1)
             output_keys := output_data.map (·.1) } := by
  constructor
  · unfold EpisodicMemory.summarizeInput
    apply List.map_congr_left
    intro kv _
    rcases kv with ⟨k, v⟩
    cases v <;> simp [claimSummarizeValue] <;> split <;> rfl
  · unfold EpisodicMemory.store
    rw [getEntries_setEntries]
    simp only [EpisodicMemory.summarizeOutput]
    split
    · exact lastSlice_concat_getLast? _ _ _
    · exact List.getLast?_concat _

/-- Claim C4: when `next_retry_at` is omitted, the scheduled backoff delay
before the attempt with (0-based) index `k` is exactly `5 * 3 ^ k` minutes:
a submission whose payload carries attempt index `k = data.get("_attempt", 0)`
is scheduled `5 * 3 ^ k` minutes ahead, and a failed attempt with budget
left is rescheduled `5 * 3 ^ a` minutes ahead where `a` (the pre-increment
attempt number) equals the new 0-based attempt index; the delays for
indices 0, 1, 2 are exactly 5, 15 and 45 minutes. -/
theorem C4_exponential_backoff
    (cbs : Callbacks) (s : RQState) (name : String) (data : Dict)
    (err : String) (maxA : Nat) (opId : String) (now : Nat)
    (op : Operation) (e : String) (t : Nat)
    (hreg : RetryQueue.hasHandler cbs name = true)
    (hfail : RetryQueue.callCallback cbs op.name
        (setKey op.data "_attempt" (Json.num op.attempt)) = .error e)
    (hlt : op.attempt < op.max_attempts) :
    (∃ s1 op1,
      RetryQueue.enqueue_failed_operation cbs s name data err maxA none opId
          now = .ok (s1, opId) ∧
      RetryQueue.findOp s1.pending_tasks opId = some op1 ∧
      op1.next_retry_at = now + 5 * 3 ^ RetryQueue.getAttempt data ∧
      op1.attempt = RetryQueue.getAttempt data + 1) ∧
    (∃ op2,
      RetryQueue.findOp
          (RetryQueue.executeRetry cbs s op t).1.pending_tasks op.id =
        some op2 ∧
      op2.next_retry_at = t + 5 * 3 ^ op.attempt ∧
      op2.attempt = op.attempt + 1) ∧
    5 * 3 ^ 0 = 5 ∧ 5 * 3 ^ 1 = 15 ∧ 5 * 3 ^ 2 = 45 := by
  refine ⟨?_, ?_, by norm_num, by norm_num, by norm_num⟩
  · refine ⟨_, RetryQueue.newOperation name data err maxA none opId now,
      enqueue_ok cbs s name data err maxA none opId now hreg, ?_, rfl, rfl⟩
    exact findOp_setOp s.pending_tasks _
  · refine ⟨RetryQueue.reschedOp op t e, ?_, rfl, rfl⟩
    rw [executeRetry_fail_reschedule cbs s op t e hfail hlt]
    exact findOp_setOp s.pending_tasks _

theorem findOp_removeOp_self (l : List Operation) (id : String) :
    RetryQueue.findOp (RetryQueue.removeOp l id) id = none := by
  rw [RetryQueue.findOp, List.find?_eq_none]
  intro op hop
  have := List.of_mem_filter hop
  simpa using this

/-- Claim C3: a fresh submission with `max_attempts = 3` whose handler
fails on every invocation goes through exactly 3 failed handler
invocations: the first two executions reschedule the operation (no dead
letter yet, operation still active), the third removes it from the active
set and from durable storage, appends exactly one dead-letter record (the
operation snapshot plus the final error and the terminal timestamp) and
surfaces `RetryExhaustedError`. -/
theorem C3_retry_exhaustion
    (cbs : Callbacks) (s0 : RQState) (name : String) (data : Dict)
    (err : String) (opId : String) (t0 t1 t2 t3 : Nat)
    (hreg : RetryQueue.hasHandler cbs name = true)
    (hfail : ∀ d, ∃ m, RetryQueue.callCallback cbs name d = .error m)
    (hatt : RetryQueue.getAttempt data = 0)
    (hdl : s0.dead_letters = []) :
    ∃ s1 op1 s2 op2 s3 op3 s4 m1 m2 m3,
      RetryQueue.enqueue_failed_operation cbs s0 name data err 3 none opId t0
        = .ok (s1, opId) ∧
      RetryQueue.findOp s1.pending_tasks opId = some op1 ∧ op1.attempt = 1 ∧
      RetryQueue.executeRetry cbs s1 op1 t1 = (s2, .rescheduled m1) ∧
      s2.dead_letters = [] ∧
      RetryQueue.findOp s2.pending_tasks opId = some op2 ∧ op2.attempt = 2 ∧
      RetryQueue.executeRetry cbs s2 op2 t2 = (s3, .rescheduled m2) ∧
      s3.dead_letters = [] ∧
      RetryQueue.findOp s3.pending_tasks opId = some op3 ∧ op3.attempt = 3 ∧
      RetryQueue.executeRetry cbs s3 op3 t3 =
        (s4, .exhausted (.retryExhaustedError
          ("Operation " ++ name ++ " failed after " ++ toString (3 : Nat) ++
            " attempts"))) ∧
      s4.dead_letters =
        [{ op := RetryQueue.deadOp op3 t3, final_error := m3,
           failed_at := t3 }] ∧
      (RetryQueue.deadOp op3 t3).id = opId ∧
      (RetryQueue.deadOp op3 t3).attempt = 3 ∧
      RetryQueue.findOp s4.pending_tasks opId = none ∧
      RetryQueue.findOp s4.disk opId = none := by
  set op1 := RetryQueue.newOperation name data err 3 none opId t0 with hop1def
  obtain ⟨m1, hm1⟩ := hfail (setKey op1.data "_attempt" (Json.num op1.attempt))
  set op2 := RetryQueue.reschedOp op1 t1 m1 with hop2def
  obtain ⟨m2, hm2⟩ := hfail (setKey op2.data "_attempt" (Json.num op2.attempt))
  set op3 := RetryQueue.reschedOp op2 t2 m2 with hop3def
  obtain ⟨m3, hm3⟩ := hfail (setKey op3.data "_attempt" (Json.num op3.attempt))
  have a1 : op1.attempt = 1 := by
    simp [hop1def, RetryQueue.newOperation, hatt]
  have a2 : op2.attempt = 2 := by
    simp [hop2def, RetryQueue.reschedOp, a1]
  have a3 : op3.attempt = 3 := by
    simp [hop3def, RetryQueue.reschedOp, a2]
  set s1 : RQState :=
    { s0 with
      disk := RetryQueue.setOp s0.disk op1
      pending_tasks := RetryQueue.setOp s0.pending_tasks op1 } with hs1
  set s2 : RQState :=
    { s1 with
      disk := RetryQueue.setOp s1.disk op2
      pending_tasks := RetryQueue.setOp s1.pending_tasks op2 } with hs2
  set s3 : RQState :=
    { s2 with
      disk := RetryQueue.setOp s2.disk op3
      pending_tasks := RetryQueue.setOp s2.pending_tasks op3 } with hs3
  set s4 : RQState :=
    { s3 with
      pending_tasks := RetryQueue.removeOp s3.pending_tasks op3.id
      disk := RetryQueue.removeOp s3.disk op3.id
      dead_letters := s3.dead_letters ++
        [{ op := RetryQueue.deadOp op3 t3, final_error := m3,
           failed_at := t3 }] } with hs4
  have hlt1 : op1.attempt < op1.max_attempts := by
    rw [a1, show op1.max_attempts = 3 from rfl]
    omega
  have hlt2 : op2.attempt < op2.max_attempts := by
    rw [a2, show op2.max_attempts = 3 from rfl]
    omega
  have hge3 : op3.max_attempts ≤ op3.attempt := by
    rw [a3, show op3.max_attempts = 3 from rfl]
  refine ⟨s1, op1, s2, op2, s3, op3, s4, m1, m2, m3,
    enqueue_ok cbs s0 name data err 3 none opId t0 hreg,
    findOp_setOp s0.pending_tasks op1, a1,
    executeRetry_fail_reschedule cbs s1 op1 t1 m1 hm1 hlt1,
    hdl,
    findOp_setOp s1.pending_tasks op2, a2,
    executeRetry_fail_reschedule cbs s2 op2 t2 m2 hm2 hlt2,
    hdl,
    findOp_setOp s2.pending_tasks op3, a3,
    executeRetry_fail_exhaust cbs s3 op3 t3 m3 hm3 hge3,
    ?_, rfl, a3,
    findOp_removeOp_self s3.pending_tasks op3.id,
    findOp_removeOp_self s3.disk op3.id⟩
  have h4 : s4.dead_letters = s0.dead_letters ++
      [{ op := RetryQueue.deadOp op3 t3, final_error := m3,
         failed_at := t3 }] := rfl
  rw [h4, hdl, List.nil_append]

/-- Claim C2, amended: the retry queue's submit raises `QueueError` (with
an "Unregistered operation" message — `app/errors.py` has no
`UnregisteredOperationError` class) for an unregistered operation type, and
no record is created; a registered type yields the fresh id with the
operation recorded in the active set and on disk.  The workflow queue's
`enqueue` performs no handler-registration check at all: it always creates
a `pending` task record and returns the fresh task id. -/
theorem C2_unregistered_handler_amended
    (cbs : Callbacks) (s : RQState) (name : String) (data : Dict)
    (err : String) (maxA : Nat) (nra : Option Nat) (opId : String) (now : Nat)
    (wqs : WQState) (wtype : String) (wdata : Json) (prio : Int)
    (deps : Option (List String)) (tid : String) (wnow : Nat) :
    (RetryQueue.hasHandler cbs name = false →
      RetryQueue.enqueue_failed_operation cbs s name data err maxA nra opId now
        = .error (.queueError ("Unregistered operation: " ++ name))) ∧
    (RetryQueue.hasHandler cbs name = true →
      ∃ s', RetryQueue.enqueue_failed_operation cbs s name data err maxA nra
          opId now = .ok (s', opId) ∧
        (RetryQueue.findOp s'.pending_tasks opId).isSome = true ∧
        (RetryQueue.findOp s'.disk opId).isSome = true) ∧
    ((WorkflowQueue.enqueue wqs wtype wdata prio deps tid wnow).2 = tid ∧
      (WorkflowQueue.get_status
          (WorkflowQueue.enqueue wqs wtype wdata prio deps tid wnow).1 tid).map
        (·.status) = some "pending") := by
  refine ⟨fun h => ?_, fun h => ?_, rfl, ?_⟩
  · simp [RetryQueue.enqueue_failed_operation, h]
  · refine ⟨_, enqueue_ok cbs s name data err maxA nra opId now h, ?_, ?_⟩
    · show (RetryQueue.findOp (RetryQueue.setOp s.pending_tasks
          (RetryQueue.newOperation name data err maxA nra opId now))
          opId).isSome = true
      rw [show RetryQueue.findOp (RetryQueue.setOp s.pending_tasks
          (RetryQueue.newOperation name data err maxA nra opId now)) opId =
          some (RetryQueue.newOperation name data err maxA nra opId now) from
        findOp_setOp s.pending_tasks _]
      rfl
    · show (RetryQueue.findOp (RetryQueue.setOp s.disk
          (RetryQueue.newOperation name data err maxA nra opId now))
          opId).isSome = true
      rw [show RetryQueue.findOp (RetryQueue.setOp s.disk
          (RetryQueue.newOperation name data err maxA nra opId now)) opId =
          some (RetryQueue.newOperation name data err maxA nra opId now) from
        findOp_setOp s.disk _]
      rfl
  · simp [WorkflowQueue.enqueue, WorkflowQueue.get_status, hget_hset]

theorem C2_unregistered_handler_amended_witness :
    RetryQueue.enqueue_failed_operation [] {} "apify_scrape" [] "boom" 3 none
      "o1" 0 =
      .error (.queueError ("Unregistered operation: " ++ "apify_scrape")) ∧
    (∃ s', RetryQueue.enqueue_failed_operation failingCallbacks {} "op" []
        "boom" 3 none "o2" 5 = .ok (s', "o2") ∧
      (RetryQueue.findOp s'.pending_tasks "o2").isSome = true ∧
      (RetryQueue.findOp s'.disk "o2").isSome = true) ∧
    ((WorkflowQueue.enqueue {} "t" Json.null 0 none "w1" 0).2 = "w1" ∧
      (WorkflowQueue.get_status
          (WorkflowQueue.enqueue {} "t" Json.null 0 none "w1" 0).1 "w1").map
        (·.status) = some "pending") :=
  ⟨(C2_unregistered_handler_amended [] {} "apify_scrape" [] "boom" 3 none
      "o1" 0 {} "t" Json.null 0 none "w1" 0).1 rfl,
    (C2_unregistered_handler_amended failingCallbacks {} "op" [] "boom" 3 none
      "o2" 5 {} "t" Json.null 0 none "w1" 0).2.1 rfl,
    (C2_unregistered_handler_amended failingCallbacks {} "op" [] "boom" 3 none
      "o2" 5 {} "t" Json.null 0 none "w1" 0).2.2⟩

theorem setOp_append_of_fresh (l : List Operation) (op : Operation)
    (h : RetryQueue.findOp l op.id = none) :
    RetryQueue.setOp l op = l ++ [op] := by
  induction l with
  | nil => simp [RetryQueue.setOp]
  | cons x xs ih =>
      rw [RetryQueue.findOp, List.find?_eq_none] at h
      have hx : (x.id == op.id) = false := by
        have := h x (List.Mem.head xs)
        simpa using this
      rw [RetryQueue.setOp, hx]
      simp only [Bool.false_eq_true, if_false, List.cons_append,
        List.cons.injEq, true_and]
      apply ih
      rw [RetryQueue.findOp, List.find?_eq_none]
      intro y hy
      exact h y (List.Mem.tail x hy)

theorem foldl_setOp_fresh (l : List Operation) (acc : List Operation)
    (h : ∀ x ∈ l, RetryQueue.findOp acc x.id = none)
    (hnodup : (l.map (·.id)).Nodup) :
    l.foldl RetryQueue.setOp acc = acc ++ l := by
  induction l generalizing acc with
  | nil => simp
  | cons x xs ih =>
      rw [List.foldl_cons, setOp_append_of_fresh acc x (h x (List.Mem.head xs))]
      rw [List.map_cons, List.nodup_cons] at hnodup
      rw [ih (acc ++ [x]) ?_ hnodup.2]
      · simp
      · intro y hy
        rw [RetryQueue.findOp, List.find?_eq_none]
        intro z hz
        rcases List.mem_append.mp hz with hz | hz
        · have := h y (List.Mem.tail x hy)
          rw [RetryQueue.findOp, List.find?_eq_none] at this
          exact this z hz
        · have hzx : z = x := by simpa using hz
          subst hzx
          have : y.id ∈ xs.map (·.id) := List.mem_map_of_mem _ hy
          have hne : z.id ≠ y.id := fun he => hnodup.1 (he ▸ this)
          simpa using hne

theorem findOp_map_of_nodup (l : List Operation) (f : Operation → Operation)
    (hf : ∀ x, (f x).id = x.id) (hnodup : (l.map (·.id)).Nodup)
    (op : Operation) (hmem : op ∈ l) :
    RetryQueue.findOp (l.map f) op.id = some (f op) := by
  induction l with
  | nil => cases hmem
  | cons x xs ih =>
      rw [List.map_cons, List.nodup_cons] at hnodup
      rcases List.mem_cons.mp hmem with he | hmem'
      · subst he
        rw [List.map_cons, RetryQueue.findOp, List.find?_cons]
        have : ((f op).id == op.id) = true := by simp [hf op]
        rw [this]
      · rw [List.map_cons, RetryQueue.findOp, List.find?_cons]
        have hne : ((f x).id == op.id) = false := by
          have hmem'' : op.id ∈ xs.map (·.id) := List.mem_map_of_mem _ hmem'
          have : x.id ≠ op.id := fun he => hnodup.1 (he ▸ hmem'')
          simp [hf x, this]
        rw [hne]
        exact ih hnodup.2 hmem'

theorem findOp_of_mem_nodup (l : List Operation)
    (hnodup : (l.map (·.id)).Nodup) (op : Operation) (hmem : op ∈ l) :
    RetryQueue.findOp l op.id = some op := by
  induction l with
  | nil => cases hmem
  | cons x xs ih =>
      rw [List.map_cons, List.nodup_cons] at hnodup
      rcases List.mem_cons.mp hmem with he | hmem'
      · subst he
        rw [RetryQueue.findOp, List.find?_cons]
        simp
      · rw [RetryQueue.findOp, List.find?_cons]
        have hne : (x.id == op.id) = false := by
          have hmem'' : op.id ∈ xs.map (·.id) := List.mem_map_of_mem _ hmem'
          have : x.id ≠ op.id := fun he => hnodup.1 (he ▸ hmem'')
          simpa using this
        rw [hne]
        exact ih hnodup.2 hmem'

/-- Claim C6: restarting the background processor with an empty in-memory
active set reloads every persisted operation; a past-due operation is
rescheduled for immediate retry (`next_retry_at := now`), a not-yet-due one
is loaded with its recorded `next_retry_at` unchanged; the processing loop
only hands operations whose `next_retry_at` has passed to the handler, so a
reloaded not-yet-due operation is executed only at or after its recorded
time, never before. -/
theorem C6_reload_and_due_times (s : RQState) (now : Nat)
    (hempty : s.pending_tasks = [])
    (hnodup : (s.disk.map (·.id)).Nodup) :
    (RetryQueue.processorStart s now).pending_tasks =
      s.disk.map (fun op =>
        if now < op.next_retry_at then op
        else { op with next_retry_at := now }) ∧
    (∀ op ∈ s.disk, op.next_retry_at ≤ now →
      RetryQueue.findOp (RetryQueue.processorStart s now).pending_tasks op.id =
        some { op with next_retry_at := now }) ∧
    (∀ op ∈ s.disk, now < op.next_retry_at →
      RetryQueue.findOp (RetryQueue.processorStart s now).pending_tasks op.id =
        some op) ∧
    (∀ t op', op' ∈ RetryQueue.readyOperations
        (RetryQueue.processorStart s now) t → op'.next_retry_at ≤ t) ∧
    (∀ op ∈ s.disk, now < op.next_retry_at →
      ∀ t op', op' ∈ RetryQueue.readyOperations
          (RetryQueue.processorStart s now) t → op'.id = op.id →
        op.next_retry_at ≤ t) := by
  set f : Operation → Operation := fun op =>
    if now < op.next_retry_at then op
    else { op with next_retry_at := now } with hfdef
  have hf : ∀ x, (f x).id = x.id := by
    intro x
    rw [hfdef]
    dsimp only
    split <;> rfl
  have hmapids : (s.disk.map f).map (·.id) = s.disk.map (·.id) := by
    rw [List.map_map]
    exact List.map_congr_left (fun x _ => hf x)
  have hmain : (RetryQueue.processorStart s now).pending_tasks = s.disk.map f := by
    rw [RetryQueue.processorStart, if_pos (by simp [hempty])]
    rw [RetryQueue.loadOperations]
    dsimp only
    rw [hempty, foldl_setOp_fresh (s.disk.map f) [] (fun x _ => rfl)
      (by rw [hmapids]; exact hnodup)]
    simp
  refine ⟨hmain, ?_, ?_, ?_, ?_⟩
  · intro op hmem hdue
    rw [hmain, findOp_map_of_nodup s.disk f hf hnodup op hmem]
    rw [hfdef]
    simp [Nat.not_lt.mpr hdue]
  · intro op hmem hfut
    rw [hmain, findOp_map_of_nodup s.disk f hf hnodup op hmem]
    rw [hfdef]
    simp [hfut]
  · intro t op' hready
    rw [RetryQueue.readyOperations] at hready
    have := List.of_mem_filter hready
    simpa using this
  · intro op hmem hfut t op' hready hid
    have hle : op'.next_retry_at ≤ t := by
      have := List.of_mem_filter hready
      simpa using this
    have hpending : op' ∈ (RetryQueue.processorStart s now).pending_tasks :=
      List.mem_of_mem_filter hready
    have hpnodup : ((RetryQueue.processorStart s now).pending_tasks.map
        (·.id)).Nodup := by
      rw [hmain, hmapids]
      exact hnodup
    have h1 : RetryQueue.findOp (RetryQueue.processorStart s now).pending_tasks
        op'.id = some op' := findOp_of_mem_nodup _ hpnodup op' hpending
    have h2 : RetryQueue.findOp (RetryQueue.processorStart s now).pending_tasks
        op.id = some op := by
      rw [hmain, findOp_map_of_nodup s.disk f hf hnodup op hmem, hfdef]
      simp [hfut]
    rw [hid] at h1
    rw [h1] at h2
    have : op' = op := by injection h2
    rw [← this]
    exact hle

theorem C6_reload_and_due_times_witness :
    (RetryQueue.processorStart rqDiskState 5).pending_tasks =
      [{ opDue with next_retry_at := 5 }, opFuture] ∧
    RetryQueue.findOp (RetryQueue.processorStart rqDiskState 5).pending_tasks
      "a" = some { opDue with next_retry_at := 5 } ∧
    RetryQueue.findOp (RetryQueue.processorStart rqDiskState 5).pending_tasks
      "b" = some opFuture ∧
    ({ opDue with next_retry_at := 5 } : Operation).next_retry_at ≤ 6 := by
  have h := C6_reload_and_due_times rqDiskState 5 rfl (by decide)
  refine ⟨?_, ?_, ?_, ?_⟩
  · rw [h.1]
    rfl
  · exact h.2.1 opDue (List.Mem.head _) (by decide)
  · exact h.2.2.1 opFuture (List.Mem.tail _ (List.Mem.head _)) (by decide)
  · refine h.2.2.2.1 6 _ ?_
    rw [RetryQueue.readyOperations, h.1]
    exact List.mem_filter.mpr ⟨List.Mem.head _, rfl⟩

theorem C3_retry_exhaustion_witness :
    ∃ s1 op1 s2 op2 s3 op3 s4 m1 m2 m3,
      RetryQueue.enqueue_failed_operation failingCallbacks {} "op" [] "err" 3
        none "o1" 0 = .ok (s1, "o1") ∧
      RetryQueue.findOp s1.pending_tasks "o1" = some op1 ∧ op1.attempt = 1 ∧
      RetryQueue.executeRetry failingCallbacks s1 op1 5 =
        (s2, .rescheduled m1) ∧
      s2.dead_letters = [] ∧
      RetryQueue.findOp s2.pending_tasks "o1" = some op2 ∧ op2.attempt = 2 ∧
      RetryQueue.executeRetry failingCallbacks s2 op2 20 =
        (s3, .rescheduled m2) ∧
      s3.dead_letters = [] ∧
      RetryQueue.findOp s3.pending_tasks "o1" = some op3 ∧ op3.attempt = 3 ∧
      RetryQueue.executeRetry failingCallbacks s3 op3 65 =
        (s4, .exhausted (.retryExhaustedError
          ("Operation " ++ "op" ++ " failed after " ++ toString (3 : Nat) ++
            " attempts"))) ∧
      s4.dead_letters =
        [{ op := RetryQueue.deadOp op3 65, final_error := m3,
           failed_at := 65 }] ∧
      (RetryQueue.deadOp op3 65).id = "o1" ∧
      (RetryQueue.deadOp op3 65).attempt = 3 ∧
      RetryQueue.findOp s4.pending_tasks "o1" = none ∧
      RetryQueue.findOp s4.disk "o1" = none :=
  C3_retry_exhaustion failingCallbacks {} "op" [] "err" "o1" 0 5 20 65 rfl
    (fun _ => ⟨"boom", rfl⟩) rfl rfl

theorem C4_exponential_backoff_witness :
    (∃ s1 op1,
      RetryQueue.enqueue_failed_operation failingCallbacks {} "op" [] "err" 3
          none "o1" 0 = .ok (s1, "o1") ∧
      RetryQueue.findOp s1.pending_tasks "o1" = some op1 ∧
      op1.next_retry_at = 0 + 5 * 3 ^ RetryQueue.getAttempt [] ∧
      op1.attempt = RetryQueue.getAttempt [] + 1) ∧
    (∃ op2,
      RetryQueue.findOp
          (RetryQueue.executeRetry failingCallbacks {} opDue 7).1.pending_tasks
          opDue.id = some op2 ∧
      op2.next_retry_at = 7 + 5 * 3 ^ opDue.attempt ∧
      op2.attempt = opDue.attempt + 1) ∧
    5 * 3 ^ 0 = 5 ∧ 5 * 3 ^ 1 = 15 ∧ 5 * 3 ^ 2 = 45 :=
  C4_exponential_backoff failingCallbacks {} "op" [] "err" 3 "o1" 0 opDue
    "boom" 7 rfl rfl (by decide)

theorem findOp_eq_none_iff (l : List Operation) (i : String) :
    RetryQueue.findOp l i = none ↔ ∀ op ∈ l, op.id ≠ i := by
  rw [RetryQueue.findOp, List.find?_eq_none]
  simp

theorem mem_setOp (l : List Operation) (x y : Operation)
    (h : y ∈ RetryQueue.setOp l x) : y ∈ l ∨ y = x := by
  induction l with
  | nil => simpa [RetryQueue.setOp] using h
  | cons z zs ih =>
      rw [RetryQueue.setOp] at h
      by_cases hz : (z.id == x.id) = true
      · rw [if_pos hz] at h
        rcases List.mem_cons.mp h with he | hm
        · exact Or.inr he
        · exact Or.inl (List.Mem.tail z hm)
      · rw [if_neg hz] at h
        rcases List.mem_cons.mp h with he | hm
        · exact Or.inl (he ▸ List.Mem.head zs)
        · rcases ih hm with hm' | he
          · exact Or.inl (List.Mem.tail z hm')
          · exact Or.inr he

theorem mem_removeOp (l : List Operation) (i : String) (y : Operation)
    (h : y ∈ RetryQueue.removeOp l i) : y ∈ l :=
  List.mem_of_mem_filter h

theorem mem_foldl_setOp (l2 l : List Operation) (y : Operation)
    (h : y ∈ l2.foldl RetryQueue.setOp l) : y ∈ l ∨ y ∈ l2 := by
  induction l2 generalizing l with
  | nil => exact Or.inl h
  | cons x xs ih =>
      rw [List.foldl_cons] at h
      rcases ih (RetryQueue.setOp l x) h with hm | hm
      · rcases mem_setOp l x y hm with hm' | he
        · exact Or.inl hm'
        · exact Or.inr (he ▸ List.Mem.head xs)
      · exact Or.inr (List.Mem.tail x hm)

/-- `executeRetry` on a succeeding handler removes the operation. -/
theorem executeRetry_success (cbs : Callbacks) (s : RQState)
    (op : Operation) (now : Nat) (r : Json)
    (h : RetryQueue.callCallback cbs op.name
        (setKey op.data "_attempt" (Json.num op.attempt)) = .ok r) :
    RetryQueue.executeRetry cbs s op now =
      ({ s with
          pending_tasks := RetryQueue.removeOp s.pending_tasks op.id
          disk := RetryQueue.removeOp s.disk op.id },
        .success r) := by
  simp [RetryQueue.executeRetry, h]

theorem executeRetry_preserves_inv (cbs : Callbacks) (s : RQState)
    (op : Operation) (now : Nat) (hinv : RQInv s) :
    RQInv (RetryQueue.executeRetry cbs s op now).1 := by
  cases hcc : RetryQueue.callCallback cbs op.name
      (setKey op.data "_attempt" (Json.num op.attempt)) with
  | ok r =>
      rw [executeRetry_success cbs s op now r hcc]
      exact ⟨fun y hy => hinv.1 y (mem_removeOp _ _ y hy),
        fun y hy => hinv.2 y (mem_removeOp _ _ y hy)⟩
  | error e =>
      by_cases hge : op.max_attempts ≤ op.attempt
      · rw [executeRetry_fail_exhaust cbs s op now e hcc hge]
        exact ⟨fun y hy => hinv.1 y (mem_removeOp _ _ y hy),
          fun y hy => hinv.2 y (mem_removeOp _ _ y hy)⟩
      · have hlt : op.attempt < op.max_attempts := Nat.lt_of_not_le hge
        rw [executeRetry_fail_reschedule cbs s op now e hcc hlt]
        have hres : (RetryQueue.reschedOp op now e).attempt ≤
            (RetryQueue.reschedOp op now e).max_attempts := by
          rw [RetryQueue.reschedOp]
          exact hlt
        constructor
        · intro y hy
          rcases mem_setOp _ _ y hy with hm | he
          · exact hinv.1 y hm
          · exact he ▸ hres
        · intro y hy
          rcases mem_setOp _ _ y hy with hm | he
          · exact hinv.2 y hm
          · exact he ▸ hres

theorem applyStep_preserves_inv (cbs : Callbacks) (s : RQState)
    (st : RetryQueue.RQStep) (hinv : RQInv s)
    (hok : RetryQueue.SubmitOk st) :
    RQInv (RetryQueue.applyStep cbs s st) := by
  cases st with
  | submit name data err maxA nra id now =>
      rw [RetryQueue.applyStep]
      by_cases hreg : RetryQueue.hasHandler cbs name = true
      · rw [enqueue_ok cbs s name data err maxA nra id now hreg]
        have hnew : (RetryQueue.newOperation name data err maxA nra id
            now).attempt ≤ (RetryQueue.newOperation name data err maxA nra id
            now).max_attempts := hok
        constructor
        · intro y hy
          rcases mem_setOp _ _ y hy with hm | he
          · exact hinv.1 y hm
          · exact he ▸ hnew
        · intro y hy
          rcases mem_setOp _ _ y hy with hm | he
          · exact hinv.2 y hm
          · exact he ▸ hnew
      · rw [RetryQueue.enqueue_failed_operation,
          if_pos (by simpa using hreg)]
        exact hinv
  | execute id now =>
      rw [RetryQueue.applyStep]
      cases hfind : RetryQueue.findOp s.pending_tasks id with
      | none => exact hinv
      | some op =>
          exact executeRetry_preserves_inv cbs s op now hinv
  | load now =>
      rw [RetryQueue.applyStep, RetryQueue.loadOperations]
      constructor
      · intro y hy
        dsimp only at hy
        rcases mem_foldl_setOp _ _ y hy with hm | hm
        · exact hinv.1 y hm
        · rcases List.mem_map.mp hm with ⟨x, hx, he⟩
          have := hinv.2 x hx
          subst he
          split <;> exact this
      · exact hinv.2

theorem applyTrace_preserves_inv (cbs : Callbacks) (s : RQState)
    (trace : List RetryQueue.RQStep) (hinv : RQInv s)
    (hok : ∀ st ∈ trace, RetryQueue.SubmitOk st) :
    RQInv (RetryQueue.applyTrace cbs s trace) := by
  induction trace generalizing s with
  | nil => exact hinv
  | cons st rest ih =>
      rw [RetryQueue.applyTrace, List.foldl_cons]
      exact ih (RetryQueue.applyStep cbs s st)
        (applyStep_preserves_inv cbs s st hinv (hok st (List.Mem.head rest)))
        (fun st' h => hok st' (List.Mem.tail st h))

theorem applyStep_preserves_gone (cbs : Callbacks) (s : RQState)
    (id : String) (st : RetryQueue.RQStep) (hgone : IdGone s id)
    (hno : RetryQueue.NotSubmitId id st) :
    IdGone (RetryQueue.applyStep cbs s st) id := by
  obtain ⟨hp, hd⟩ := hgone
  rw [findOp_eq_none_iff] at hp hd
  cases st with
  | submit name data err maxA nra id' now =>
      rw [RetryQueue.applyStep]
      by_cases hreg : RetryQueue.hasHandler cbs name = true
      · rw [enqueue_ok cbs s name data err maxA nra id' now hreg]
        constructor
        · rw [findOp_eq_none_iff]
          intro y hy
          rcases mem_setOp _ _ y hy with hm | he
          · exact hp y hm
          · subst he
            exact hno
        · rw [findOp_eq_none_iff]
          intro y hy
          rcases mem_setOp _ _ y hy with hm | he
          · exact hd y hm
          · subst he
            exact hno
      · rw [RetryQueue.enqueue_failed_operation, if_pos (by simpa using hreg)]
        exact ⟨(findOp_eq_none_iff _ _).mpr hp, (findOp_eq_none_iff _ _).mpr hd⟩
  | execute id2 now =>
      rw [RetryQueue.applyStep]
      cases hfind : RetryQueue.findOp s.pending_tasks id2 with
      | none =>
          exact ⟨(findOp_eq_none_iff _ _).mpr hp,
            (findOp_eq_none_iff _ _).mpr hd⟩
      | some op =>
          have hmem : op ∈ s.pending_tasks := List.mem_of_find?_eq_some hfind
          have hopid : op.id ≠ id := hp op hmem
          show IdGone (RetryQueue.executeRetry cbs s op now).1 id
          cases hcc : RetryQueue.callCallback cbs op.name
              (setKey op.data "_attempt" (Json.num op.attempt)) with
          | ok r =>
              rw [executeRetry_success cbs s op now r hcc]
              exact ⟨(findOp_eq_none_iff _ _).mpr
                  (fun y hy => hp y (mem_removeOp _ _ y hy)),
                (findOp_eq_none_iff _ _).mpr
                  (fun y hy => hd y (mem_removeOp _ _ y hy))⟩
          | error e =>
              by_cases hge : op.max_attempts ≤ op.attempt
              · rw [executeRetry_fail_exhaust cbs s op now e hcc hge]
                exact ⟨(findOp_eq_none_iff _ _).mpr
                    (fun y hy => hp y (mem_removeOp _ _ y hy)),
                  (findOp_eq_none_iff _ _).mpr
                    (fun y hy => hd y (mem_removeOp _ _ y hy))⟩
              · have hlt : op.attempt < op.max_attempts := Nat.lt_of_not_le hge
                rw [executeRetry_fail_reschedule cbs s op now e hcc hlt]
                have hrid : (RetryQueue.reschedOp op now e).id ≠ id := hopid
                constructor
                · rw [findOp_eq_none_iff]
                  intro y hy
                  rcases mem_setOp _ _ y hy with hm | he
                  · exact hp y hm
                  · exact he ▸ hrid
                · rw [findOp_eq_none_iff]
                  intro y hy
                  rcases mem_setOp _ _ y hy with hm | he
                  · exact hd y hm
                  · exact he ▸ hrid
  | load now =>
      rw [RetryQueue.applyStep, RetryQueue.loadOperations]
      constructor
      · rw [findOp_eq_none_iff]
        intro y hy
        dsimp only at hy
        rcases mem_foldl_setOp _ _ y hy with hm | hm
        · exact hp y hm
        · rcases List.mem_map.mp hm with ⟨x, hx, he⟩
          have hxid := hd x hx
          subst he
          split <;> exact hxid
      · exact (findOp_eq_none_iff _ _).mpr hd

theorem applyTrace_preserves_gone (cbs : Callbacks)
    (trace : List RetryQueue.RQStep) :
    ∀ (s : RQState) (id : String), IdGone s id →
      (∀ st ∈ trace, RetryQueue.NotSubmitId id st) →
      IdGone (RetryQueue.applyTrace cbs s trace) id := by
  induction trace with
  | nil => exact fun s id h _ => h
  | cons st rest ih =>
      intro s id h hno
      rw [RetryQueue.applyTrace, List.foldl_cons]
      exact ih (RetryQueue.applyStep cbs s st) id
        (applyStep_preserves_gone cbs s id st h (hno st (List.Mem.head rest)))
        (fun st' h' => hno st' (List.Mem.tail st h'))

/-- Claim C5, amended: (1) provided every submission's payload satisfies
`data.get("_attempt", 0) + 1 ≤ max_attempts` (fresh submissions with a
positive budget in particular), every state reachable from empty satisfies
`attempt ≤ max_attempts` for every operation in the active set — a
submission violating that side condition breaks the invariant immediately
(see the counterexample); (2) once an operation at `attempt ≥ max_attempts`
fails again it is removed from the active set and from disk; (3) an id
absent from both never re-enters the active set under any further steps
whose submissions use fresh ids. -/
theorem C5_attempt_invariant_amended (cbs : Callbacks) :
    (∀ trace : List RetryQueue.RQStep,
      (∀ st ∈ trace, RetryQueue.SubmitOk st) →
      ∀ op ∈ (RetryQueue.applyTrace cbs {} trace).pending_tasks,
        op.attempt ≤ op.max_attempts) ∧
    (∀ (s : RQState) (op : Operation) (now : Nat) (e : String),
      RetryQueue.callCallback cbs op.name
          (setKey op.data "_attempt" (Json.num op.attempt)) = .error e →
      op.max_attempts ≤ op.attempt →
      RetryQueue.findOp
          (RetryQueue.executeRetry cbs s op now).1.pending_tasks op.id =
        none ∧
      RetryQueue.findOp (RetryQueue.executeRetry cbs s op now).1.disk op.id =
        none) ∧
    (∀ (trace : List RetryQueue.RQStep) (s : RQState) (id : String),
      RetryQueue.findOp s.pending_tasks id = none →
      RetryQueue.findOp s.disk id = none →
      (∀ st ∈ trace, RetryQueue.NotSubmitId id st) →
      RetryQueue.findOp (RetryQueue.applyTrace cbs s trace).pending_tasks id =
        none) := by
  refine ⟨?_, ?_, ?_⟩
  · intro trace hok
    exact (applyTrace_preserves_inv cbs {} trace
      ⟨fun _ h => absurd h (List.not_mem_nil _), fun _ h =>
        absurd h (List.not_mem_nil _)⟩ hok).1
  · intro s op now e hcc hge
    rw [executeRetry_fail_exhaust cbs s op now e hcc hge]
    exact ⟨findOp_removeOp_self _ _, findOp_removeOp_self _ _⟩
  · intro trace s id hp hd hno
    exact (applyTrace_preserves_gone cbs trace s id ⟨hp, hd⟩ hno).1

theorem C5_attempt_invariant_amended_witness :
    (RetryQueue.newOperation "op" [] "b" 3 none "o1" 0).attempt ≤
      (RetryQueue.newOperation "op" [] "b" 3 none "o1" 0).max_attempts ∧
    (RetryQueue.findOp (RetryQueue.executeRetry failingCallbacks rqDiskState
        { opDue with attempt := 3 } 9).1.pending_tasks "a" = none ∧
      RetryQueue.findOp (RetryQueue.executeRetry failingCallbacks rqDiskState
        { opDue with attempt := 3 } 9).1.disk "a" = none) ∧
    RetryQueue.findOp (RetryQueue.applyTrace failingCallbacks rqDiskState
        [RetryQueue.RQStep.load 9]).pending_tasks "zzz" = none := by
  have h := C5_attempt_invariant_amended failingCallbacks
  refine ⟨?_, ?_, ?_⟩
  · refine h.1 [RetryQueue.RQStep.submit "op" [] "b" 3 none "o1" 0] ?_
      (RetryQueue.newOperation "op" [] "b" 3 none "o1" 0) ?_
    · intro st hst
      rw [List.mem_singleton] at hst
      subst hst
      exact (by decide : RetryQueue.getAttempt [] + 1 ≤ 3)
    · show RetryQueue.newOperation "op" [] "b" 3 none "o1" 0 ∈
        [RetryQueue.newOperation "op" [] "b" 3 none "o1" 0]
      exact List.Mem.head _
  · exact h.2.1 rqDiskState { opDue with attempt := 3 } 9 "boom" rfl
      (by decide)
  · refine h.2.2 [RetryQueue.RQStep.load 9] rqDiskState "zzz" rfl rfl ?_
    intro st hst
    rw [List.mem_singleton] at hst
    subst hst
    trivial

theorem evictIfFull_available (cap : Nat) (db : LTDb) (cid : String) :
    (LongTermMemory.evictIfFull cap db cid).available = db.available := by
  rw [LongTermMemory.evictIfFull]
  split <;> rfl

theorem upsertInsight_available (db : LTDb) (cid fk : String) (v : Dict)
    (src : String) (now : Nat) :
    (LongTermMemory.upsertInsight db cid fk v src now).available =
      db.available := by
  rw [LongTermMemory.upsertInsight]
  split <;> rfl

theorem store_available (md5hex : String → String) (cap : Nat) (db : LTDb)
    (client_id key : String) (value : Dict) (now : Nat) :
    (LongTermMemory.store md5hex cap db client_id key value now).available =
      db.available := by
  rw [LongTermMemory.store]
  split
  · rfl
  split
  · rfl
  split
  · rfl
  rw [upsertInsight_available, evictIfFull_available]

theorem upsertInsight_any_key (db : LTDb) (cid fk : String) (v : Dict)
    (src : String) (now : Nat) :
    (LongTermMemory.upsertInsight db cid fk v src now).rows.any
      (fun r => r.client_id == cid && r.key == fk) = true := by
  rw [LongTermMemory.upsertInsight]
  split
  · rename_i hc
    obtain ⟨r, hr, hcond⟩ := List.any_eq_true.mp hc
    apply List.any_eq_true.mpr
    refine ⟨{ r with value := v }, ?_, ?_⟩
    · refine List.mem_map.mpr ⟨r, hr, ?_⟩
      dsimp only
      rw [if_pos hcond]
    · have hcond' := hcond
      simp only [Bool.and_eq_true] at hcond'
      obtain ⟨⟨hcli', _⟩, hkey⟩ := hcond'
      simp only [Bool.and_eq_true]
      exact ⟨hcli', hkey⟩
  · apply List.any_eq_true.mpr
    refine ⟨_, List.mem_append_right _ (List.Mem.head _), ?_⟩
    simp

theorem store_any_key (md5hex : String → String) (cap : Nat) (db : LTDb)
    (client_id key : String) (value : Dict) (now : Nat)
    (hav : db.available = true)
    (hrej : LongTermMemory.rejectsRaw value = false)
    (hdup : db.rows.any (fun r => r.client_id == client_id &&
        r.key == LongTermMemory.fullKey md5hex key value) = false) :
    (LongTermMemory.store md5hex cap db client_id key value now).rows.any
      (fun r => r.client_id == client_id &&
        r.key == LongTermMemory.fullKey md5hex key value) = true := by
  rw [LongTermMemory.store, if_neg (by simp [hav]), if_neg (by simp [hrej]),
    if_neg (by simp [hdup])]
  exact upsertInsight_any_key _ client_id _ value key now

/-- Claim C7, amended: a second `store` call with the same namespace, the
same key and identical value content is a no-op — the dedup lookup is keyed
on `(client_id, key‖fingerprint)` (not on `(namespace, fingerprint)` alone:
see the counterexample, where the same value under two keys is stored
twice).  The statement holds for every digest function, every cap and every
starting database state. -/
theorem C7_store_idempotent_amended (md5hex : String → String) (cap : Nat)
    (db : LTDb) (client_id key : String) (value : Dict) (t1 t2 : Nat) :
    LongTermMemory.store md5hex cap
        (LongTermMemory.store md5hex cap db client_id key value t1)
        client_id key value t2 =
      LongTermMemory.store md5hex cap db client_id key value t1 := by
  by_cases hav : db.available = true
  · by_cases hrej : LongTermMemory.rejectsRaw value = true
    · have h1 : LongTermMemory.store md5hex cap db client_id key value t1
          = db := by
        rw [LongTermMemory.store, if_neg (by simp [hav]), if_pos hrej]
      rw [h1, LongTermMemory.store, if_neg (by simp [hav]), if_pos hrej]
    · by_cases hdup : db.rows.any (fun r => r.client_id == client_id &&
          r.key == LongTermMemory.fullKey md5hex key value) = true
      · have h1 : LongTermMemory.store md5hex cap db client_id key value t1
            = db := by
          rw [LongTermMemory.store, if_neg (by simp [hav]),
            if_neg (by simp [hrej]), if_pos hdup]
        rw [h1, LongTermMemory.store, if_neg (by simp [hav]),
          if_neg (by simp [hrej]), if_pos hdup]
      · have hany := store_any_key md5hex cap db client_id key value t1 hav
          (by simpa using hrej) (by simpa using hdup)
        have hav1 := store_available md5hex cap db client_id key value t1
        rw [LongTermMemory.store, if_neg (by simp [hav1, hav]),
          if_neg (by simp [hrej]), if_pos hany]
  · have h1 : LongTermMemory.store md5hex cap db client_id key value t1
        = db := by
      rw [LongTermMemory.store, if_pos (by simpa using hav)]
    rw [h1, LongTermMemory.store, if_pos (by simpa using hav)]

theorem mem_insertRow (r y : LTRow) (l : List LTRow)
    (h : y ∈ insertRow r l) : y = r ∨ y ∈ l := by
  induction l with
  | nil => simpa [insertRow] using h
  | cons x xs ih =>
      rw [insertRow] at h
      by_cases hc : rowLE r x = true
      · rw [if_pos hc] at h
        rcases List.mem_cons.mp h with he | hm
        · exact Or.inl he
        · exact Or.inr hm
      · rw [if_neg hc] at h
        rcases List.mem_cons.mp h with he | hm
        · exact Or.inr (he ▸ List.Mem.head xs)
        · rcases ih hm with he | hm'
          · exact Or.inl he
          · exact Or.inr (List.Mem.tail x hm')

theorem mem_sortRowsAsc (l : List LTRow) (y : LTRow)
    (h : y ∈ sortRowsAsc l) : y ∈ l := by
  induction l with
  | nil => simpa [sortRowsAsc] using h
  | cons x xs ih =>
      rw [sortRowsAsc, List.foldr_cons] at h
      rcases mem_insertRow x y _ h with he | hm
      · exact he ▸ List.Mem.head xs
      · exact List.Mem.tail x (ih hm)

theorem mem_search (db : LTDb) (cid mt : String) (r : LTRow)
    (h : r ∈ LongTermMemory.search db cid mt) : r ∈ db.rows := by
  rw [LongTermMemory.search] at h
  split at h
  · cases h
  · have h1 := List.take_subset 50 _ h
    have h2 := List.mem_reverse.mp h1
    exact List.mem_of_mem_filter (mem_sortRowsAsc _ _ h2)

theorem mem_evictIfFull (cap : Nat) (db : LTDb) (cid : String) (r : LTRow)
    (h : r ∈ (LongTermMemory.evictIfFull cap db cid).rows) : r ∈ db.rows := by
  rw [LongTermMemory.evictIfFull] at h
  split at h
  · exact List.mem_of_mem_filter h
  · exact h

theorem mem_upsertInsight (db : LTDb) (cid fk : String) (v : Dict)
    (src : String) (now : Nat) (r : LTRow)
    (h : r ∈ (LongTermMemory.upsertInsight db cid fk v src now).rows) :
    r ∈ db.rows ∨ r.value = v := by
  rw [LongTermMemory.upsertInsight] at h
  split at h
  · dsimp only at h
    rcases List.mem_map.mp h with ⟨x, hx, he⟩
    subst he
    split
    · exact Or.inr rfl
    · exact Or.inl hx
  · dsimp only at h
    rcases List.mem_append.mp h with hm | hm
    · exact Or.inl hm
    · have he := List.mem_singleton.mp hm
      exact Or.inr (by rw [he])

theorem mem_store_rows (md5hex : String → String) (cap : Nat) (db : LTDb)
    (cid key : String) (v : Dict) (now : Nat) (r : LTRow)
    (h : r ∈ (LongTermMemory.store md5hex cap db cid key v now).rows) :
    r ∈ db.rows ∨
      (r.value = v ∧ LongTermMemory.rejectsRaw v = false) := by
  by_cases hav : db.available = true
  case neg =>
    rw [LongTermMemory.store, if_pos (by simpa using hav)] at h
    exact Or.inl h
  by_cases hrej : LongTermMemory.rejectsRaw v = true
  · rw [LongTermMemory.store, if_neg (by simp [hav]), if_pos hrej] at h
    exact Or.inl h
  have hrej' : LongTermMemory.rejectsRaw v = false := by simpa using hrej
  by_cases hdup : (db.rows.any fun r => r.client_id == cid &&
      r.key == LongTermMemory.fullKey md5hex key v) = true
  · rw [LongTermMemory.store, if_neg (by simp [hav]), if_neg (by simp [hrej]),
      if_pos hdup] at h
    exact Or.inl h
  · rw [LongTermMemory.store, if_neg (by simp [hav]), if_neg (by simp [hrej]),
      if_neg hdup] at h
    rcases mem_upsertInsight _ cid _ v key now r h with hm | hv
    · exact Or.inl (mem_evictIfFull cap db cid r hm)
    · exact Or.inr ⟨hv, hrej'⟩

theorem rejectsRaw_false_lookup (v : Dict)
    (h : LongTermMemory.rejectsRaw v = false) :
    lookupKey v "raw_prompt" = none ∧ lookupKey v "scraper_payload" = none := by
  rw [LongTermMemory.rejectsRaw, Bool.or_eq_false_iff] at h
  obtain ⟨h1, h2⟩ := h
  rw [hasKey] at h1 h2
  constructor
  · cases hl : lookupKey v "raw_prompt" with
    | none => rfl
    | some j => rw [hl] at h1; cases h1
  · cases hl : lookupKey v "scraper_payload" with
    | none => rfl
    | some j => rw [hl] at h2; cases h2

theorem applyMMOp_clean (md5hex : String → String) (cap capM : Nat)
    (mm : MMState) (op : MMOp) (h : CleanRows mm.lt) :
    CleanRows (applyMMOp md5hex cap capM mm op).lt := by
  cases op with
  | storeShortTerm cid key v =>
      rw [applyMMOp, MemoryManager.store_short_term]
      split
      · exact h
      · exact h
  | storeEpisodic cid at' input output insights now =>
      exact h
  | storeLongTerm cid key v src now =>
      rw [applyMMOp, MemoryManager.store_long_term]
      intro r hr
      dsimp only at hr
      rcases mem_store_rows md5hex cap mm.lt cid key _ now r hr with hm | ⟨hv, hrej⟩
      · exact h r hm
      · rw [hv]
        exact rejectsRaw_false_lookup _ hrej

theorem applyMMOps_clean (md5hex : String → String) (cap capM : Nat)
    (ops : List MMOp) :
    ∀ mm : MMState, CleanRows mm.lt →
      CleanRows (applyMMOps md5hex cap capM mm ops).lt := by
  induction ops with
  | nil => exact fun mm h => h
  | cons op rest ih =>
      intro mm h
      rw [applyMMOps, List.foldl_cons]
      exact ih (applyMMOp md5hex cap capM mm op)
        (applyMMOp_clean md5hex cap capM mm op h)

theorem applyMMOp_lt_available (md5hex : String → String) (cap capM : Nat)
    (mm : MMState) (op : MMOp) :
    (applyMMOp md5hex cap capM mm op).lt.available = mm.lt.available := by
  cases op with
  | storeShortTerm cid key v =>
      rw [applyMMOp, MemoryManager.store_short_term]
      split <;> rfl
  | storeEpisodic cid at' input output insights now => rfl
  | storeLongTerm cid key v src now =>
      rw [applyMMOp, MemoryManager.store_long_term]
      exact store_available md5hex cap mm.lt cid key _ now

theorem applyMMOps_lt_available (md5hex : String → String) (cap capM : Nat)
    (ops : List MMOp) :
    ∀ mm : MMState, (applyMMOps md5hex cap capM mm ops).lt.available =
      mm.lt.available := by
  induction ops with
  | nil => exact fun mm => rfl
  | cons op rest ih =>
      intro mm
      rw [applyMMOps, List.foldl_cons]
      have hih := ih (applyMMOp md5hex cap capM mm op)
      rw [applyMMOps] at hih
      rw [hih]
      exact applyMMOp_lt_available md5hex cap capM mm op

/-- Claim C9, amended: after any sequence of store operations starting from
the empty memory state, no value reachable through `get_ai_context`'s
`recent_insights` carries a *top-level* denylisted field (`raw_prompt`,
`scraper_payload`) — the store rejects those; the context is exactly the
episodic summary plus the (at most 5) newest stored insights rendered as
`{key, value, created_at}`.  The guarantee is top-level only: a denylisted
field nested deeper inside an accepted value passes the store's check and
does surface in the context (see the counterexample). -/
theorem C9_context_top_level_clean_amended (md5hex : String → String)
    (cap capM : Nat) (ops : List MMOp) (cid : String) :
    (∀ r ∈ LongTermMemory.search (applyMMOps md5hex cap capM {} ops).lt cid
        "insight",
      lookupKey r.value "raw_prompt" = none ∧
      lookupKey r.value "scraper_payload" = none) ∧
    MemoryManager.get_ai_context (applyMMOps md5hex cap capM {} ops) cid =
      Json.obj
        [("episodic_summary", Json.arr (EpisodicMemory.get_summary
            (applyMMOps md5hex cap capM {} ops).ep cid 10)),
         ("recent_insights", Json.arr
            (((LongTermMemory.search (applyMMOps md5hex cap capM {} ops).lt
                cid "insight").take 5).map (fun r =>
              Json.obj [("key", .str r.key), ("value", .obj r.value),
                        ("created_at", .num r.created_at)])))] := by
  constructor
  · intro r hr
    exact applyMMOps_clean md5hex cap capM ops {}
      (fun _ h => absurd h (List.not_mem_nil _)) r
      (mem_search _ cid "insight" r hr)
  · rw [MemoryManager.get_ai_context]
    have hav : (applyMMOps md5hex cap capM {} ops).lt.available = true :=
      applyMMOps_lt_available md5hex cap capM ops {}
    rw [if_pos hav]

theorem C9_context_top_level_clean_amended_witness :
    MemoryManager.get_ai_context mmW "c" =
      Json.obj
        [("episodic_summary", Json.arr (EpisodicMemory.get_summary
            mmW.ep "c" 10)),
         ("recent_insights", Json.arr
            (((LongTermMemory.search mmW.lt "c" "insight").take 5).map (fun r =>
              Json.obj [("key", .str r.key), ("value", .obj r.value),
                        ("created_at", .num r.created_at)])))] :=
  (C9_context_top_level_clean_amended (fun s => s) 1000 100
    [MMOp.storeLongTerm "c" "k" [("insight", Json.str "x")] "" 0] "c").2

theorem mkRows_length (md5hex : String → String) (cid : String)
    (l : List LTCall) : ∀ i, (mkRows md5hex cid i l).length = l.length := by
  induction l with
  | nil => intro i; rfl
  | cons c cs ih =>
      intro i
      rw [mkRows, List.length_cons, List.length_cons, ih (i + 1)]

theorem mkRows_append (md5hex : String → String) (cid : String)
    (l1 l2 : List LTCall) : ∀ i,
    mkRows md5hex cid i (l1 ++ l2) =
      mkRows md5hex cid i l1 ++ mkRows md5hex cid (i + l1.length) l2 := by
  induction l1 with
  | nil => intro i; simp [mkRows]
  | cons c cs ih =>
      intro i
      rw [List.cons_append, mkRows, mkRows, ih (i + 1), List.cons_append,
        List.length_cons]
      have : i + 1 + cs.length = i + (cs.length + 1) := by omega
      rw [this]

theorem mem_mkRows (md5hex : String → String) (cid : String)
    (l : List LTCall) : ∀ i, ∀ r ∈ mkRows md5hex cid i l,
    r.client_id = cid ∧ i ≤ r.id ∧ r.id < i + l.length ∧
      ∃ c' ∈ l, r.created_at = c'.now ∧
        r.key = LongTermMemory.fullKey md5hex c'.key c'.value := by
  induction l with
  | nil =>
      intro i r hr
      cases hr
  | cons c cs ih =>
      intro i r hr
      rw [mkRows] at hr
      rcases List.mem_cons.mp hr with he | hm
      · subst he
        refine ⟨rfl, Nat.le_refl i, by simp [List.length_cons], ?_⟩
        exact ⟨c, List.Mem.head cs, rfl, rfl⟩
      · obtain ⟨hcli, hlo, hhi, c', hc', hcr⟩ := ih (i + 1) r hm
        refine ⟨hcli, by omega, by rw [List.length_cons]; omega, ?_⟩
        exact ⟨c', List.Mem.tail c hc', hcr⟩

theorem any_key_eq_false_of_forall (rows : List LTRow) (cid fk : String)
    (h : ∀ r ∈ rows, r.client_id = cid → r.key ≠ fk) :
    rows.any (fun r => r.client_id == cid && r.key == fk) = false := by
  rw [List.any_eq_false]
  intro r hr
  simp only [Bool.and_eq_true, beq_iff_eq, not_and]
  exact h r hr

theorem conflict_any_false (rows : List LTRow) (cid fk : String)
    (h : rows.any (fun r => r.client_id == cid && r.key == fk) = false) :
    rows.any (fun r => r.client_id == cid && r.memory_type == "insight" &&
      r.key == fk) = false := by
  rw [List.any_eq_false] at h ⊢
  intro r hr hc
  apply h r hr
  simp only [Bool.and_eq_true] at hc ⊢
  exact ⟨hc.1.1, hc.2⟩

/-- A `store` call on an available database whose value passes the
denylist, whose dedup key is fresh and whose client is below the cap simply
appends one row and bumps the serial. -/
theorem store_insert_fresh (md5hex : String → String) (cap : Nat)
    (db : LTDb) (cid key : String) (v : Dict) (now : Nat)
    (hav : db.available = true)
    (hrej : LongTermMemory.rejectsRaw v = false)
    (hfresh : db.rows.any (fun r => r.client_id == cid &&
        r.key == LongTermMemory.fullKey md5hex key v) = false)
    (hcount : (db.rows.filter (fun r => r.client_id == cid)).length < cap) :
    LongTermMemory.store md5hex cap db cid key v now =
      { db with
          rows := db.rows ++
            [{ id := db.nextId, client_id := cid, memory_type := "insight",
               key := LongTermMemory.fullKey md5hex key v, value := v,
               source_analysis := key, created_at := now }],
          nextId := db.nextId + 1 } := by
  rw [LongTermMemory.store, if_neg (by simp [hav]), if_neg (by simp [hrej]),
    if_neg (by simp [hfresh])]
  rw [LongTermMemory.evictIfFull, if_neg (Nat.not_le.mpr hcount)]
  rw [LongTermMemory.upsertInsight,
    if_neg (by simp [conflict_any_false db.rows cid _ hfresh])]

theorem storeCalls_cons (md5hex : String → String) (cap : Nat) (db : LTDb)
    (cid : String) (c : LTCall) (cs : List LTCall) :
    storeCalls md5hex cap db cid (c :: cs) =
      storeCalls md5hex cap
        (LongTermMemory.store md5hex cap db cid c.key c.value c.now) cid cs :=
  rfl

theorem storeCalls_fresh (md5hex : String → String) (cap : Nat)
    (cid : String) (calls : List LTCall) : ∀ db : LTDb,
    db.available = true →
    (∀ c ∈ calls, LongTermMemory.rejectsRaw c.value = false) →
    (∀ c ∈ calls, db.rows.any (fun r => r.client_id == cid &&
        r.key == LongTermMemory.fullKey md5hex c.key c.value) = false) →
    ((calls.map (fun c => LongTermMemory.fullKey md5hex c.key
        c.value)).Nodup) →
    (db.rows.filter (fun r => r.client_id == cid)).length + calls.length ≤
      cap →
    storeCalls md5hex cap db cid calls =
      { db with
          rows := db.rows ++ mkRows md5hex cid db.nextId calls,
          nextId := db.nextId + calls.length } := by
  induction calls with
  | nil =>
      intro db hav hrej hfresh hnodup hcount
      simp [storeCalls, mkRows]
  | cons c cs ih =>
      intro db hav hrej hfresh hnodup hcount
      have hcount1 : (db.rows.filter (fun r => r.client_id == cid)).length <
          cap := by
        rw [List.length_cons] at hcount
        omega
      rw [storeCalls_cons,
        store_insert_fresh md5hex cap db cid c.key c.value c.now hav
          (hrej c (List.Mem.head cs)) (hfresh c (List.Mem.head cs)) hcount1]
      set row0 : LTRow :=
        { id := db.nextId, client_id := cid, memory_type := "insight",
          key := LongTermMemory.fullKey md5hex c.key c.value, value := c.value,
          source_analysis := c.key, created_at := c.now } with hrow0
      rw [List.map_cons, List.nodup_cons] at hnodup
      have hfresh' : ∀ c' ∈ cs,
          (({ db with rows := db.rows ++ [row0], nextId := db.nextId + 1 } :
            LTDb).rows.any (fun r => r.client_id == cid &&
              r.key == LongTermMemory.fullKey md5hex c'.key c'.value)) =
            false := by
        intro c' hc'
        dsimp only
        rw [List.any_append, Bool.or_eq_false_iff]
        refine ⟨hfresh c' (List.Mem.tail c hc'), ?_⟩
        rw [List.any_cons, List.any_nil, Bool.or_false]
        have hne : LongTermMemory.fullKey md5hex c.key c.value ≠
            LongTermMemory.fullKey md5hex c'.key c'.value := by
          intro he
          exact hnodup.1 (he ▸ List.mem_map_of_mem _ hc')
        simp [hrow0, hne]
      have hcount' :
          ((({ db with rows := db.rows ++ [row0], nextId := db.nextId + 1 } :
            LTDb).rows.filter (fun r => r.client_id == cid)).length +
            cs.length) ≤ cap := by
        dsimp only
        rw [List.filter_append, List.length_append]
        have hone : List.filter (fun r => r.client_id == cid) [row0] =
            [row0] := by
          simp [hrow0]
        rw [hone]
        rw [List.length_cons] at hcount
        simp only [List.length_cons, List.length_nil]
        omega
      rw [ih { db with rows := db.rows ++ [row0], nextId := db.nextId + 1 }
        hav (fun c' h => hrej c' (List.Mem.tail c h)) hfresh' hnodup.2
        hcount']
      rw [mkRows]
      simp only [hrow0, LTDb.mk.injEq, List.append_assoc,
        List.singleton_append, List.length_cons]
      refine ⟨trivial, trivial, by omega⟩

theorem insertRow_of_forall (a : LTRow) (l : List LTRow)
    (h : ∀ x ∈ l, rowLE a x = true) : insertRow a l = a :: l := by
  cases l with
  | nil => rfl
  | cons x xs => rw [insertRow, if_pos (h x (List.Mem.head xs))]

theorem sortRowsAsc_of_pairwise (l : List LTRow)
    (h : l.Pairwise (fun a b => rowLE a b = true)) : sortRowsAsc l = l := by
  induction l with
  | nil => rfl
  | cons a xs ih =>
      rw [List.pairwise_cons] at h
      rw [sortRowsAsc, List.foldr_cons]
      rw [show xs.foldr insertRow [] = sortRowsAsc xs from rfl, ih h.2]
      exact insertRow_of_forall a xs h.1

theorem mkRows_pairwise (md5hex : String → String) (cid : String)
    (l : List LTCall) (hsorted : l.Pairwise (fun a b => a.now ≤ b.now)) :
    ∀ i, (mkRows md5hex cid i l).Pairwise (fun a b => rowLE a b = true) := by
  induction l with
  | nil => intro i; exact List.Pairwise.nil
  | cons c cs ih =>
      intro i
      rw [List.pairwise_cons] at hsorted
      rw [mkRows]
      refine List.Pairwise.cons ?_ (ih hsorted.2 (i + 1))
      intro r' hr'
      obtain ⟨_, hlo, _, c', hc', hcr, _⟩ := mem_mkRows md5hex cid cs (i + 1)
        r' hr'
      have hle : c.now ≤ r'.created_at := hcr ▸ hsorted.1 c' hc'
      simp only [rowLE, Bool.or_eq_true, Bool.and_eq_true, decide_eq_true_eq,
        beq_iff_eq]
      omega

theorem storeCalls_append (md5hex : String → String) (cap : Nat)
    (db : LTDb) (cid : String) (l1 l2 : List LTCall) :
    storeCalls md5hex cap db cid (l1 ++ l2) =
      storeCalls md5hex cap (storeCalls md5hex cap db cid l1) cid l2 := by
  rw [storeCalls, storeCalls, storeCalls, List.foldl_append]

theorem storeCalls_singleton (md5hex : String → String) (cap : Nat)
    (db : LTDb) (cid : String) (c : LTCall) :
    storeCalls md5hex cap db cid [c] =
      LongTermMemory.store md5hex cap db cid c.key c.value c.now :=
  rfl

theorem filter_client_mkRows (md5hex : String → String) (cid : String)
    (l : List LTCall) (i : Nat) :
    (mkRows md5hex cid i l).filter (fun r => r.client_id == cid) =
      mkRows md5hex cid i l := by
  rw [List.filter_eq_self]
  intro r hr
  have := (mem_mkRows md5hex cid l i r hr).1
  simp [this]

/-- Claim C8, amended: with a configured cap of at least 10, storing
`cap + 1` values with pairwise-distinct dedup keys (e.g. distinct value
contents) into one namespace leaves exactly `cap - 9` records, not `cap`:
the eviction step deletes the 10 oldest rows (`LIMIT 10`) before the final
insert.  The surviving rows are exactly the rows of calls 11..cap in
insertion order followed by the new row — the oldest 10 are the evicted
ones. -/
theorem C8_fifo_eviction_amended (md5hex : String → String) (cap : Nat)
    (cid : String) (calls : List LTCall) (c : LTCall)
    (hcap : 10 ≤ cap)
    (hlen : calls.length = cap)
    (hrej : ∀ c' ∈ calls ++ [c], LongTermMemory.rejectsRaw c'.value = false)
    (hnodup : ((calls ++ [c]).map (fun c' =>
        LongTermMemory.fullKey md5hex c'.key c'.value)).Nodup)
    (hsorted : calls.Pairwise (fun a b => a.now ≤ b.now)) :
    storeCalls md5hex cap {} cid (calls ++ [c]) =
      { available := true,
        rows := mkRows md5hex cid 10 (calls.drop 10) ++
          [{ id := cap, client_id := cid, memory_type := "insight",
             key := LongTermMemory.fullKey md5hex c.key c.value,
             value := c.value, source_analysis := c.key,
             created_at := c.now }],
        nextId := cap + 1 } ∧
    ((storeCalls md5hex cap {} cid (calls ++ [c])).rows.filter
        (fun r => r.client_id == cid)).length = cap - 9 := by
  rw [List.map_append] at hnodup
  have hnodup' := List.nodup_append.mp hnodup
  have hfkc : LongTermMemory.fullKey md5hex c.key c.value ∉
      calls.map (fun c' => LongTermMemory.fullKey md5hex c'.key c'.value) := by
    intro hm
    exact hnodup'.2.2 hm (by simp)
  have h10 : (calls.take 10).length = 10 := by
    rw [List.length_take, hlen]
    omega
  have hdb1 : storeCalls md5hex cap {} cid calls =
      { available := true, rows := mkRows md5hex cid 0 calls,
        nextId := cap } := by
    have h := storeCalls_fresh md5hex cap cid calls {} rfl
      (fun c' hc' => hrej c' (List.mem_append_left _ hc'))
      (fun c' _ => rfl) hnodup'.1 (by simp [hlen])
    rw [h, hlen]
    simp
  have hfinal : storeCalls md5hex cap {} cid (calls ++ [c]) =
      { available := true,
        rows := mkRows md5hex cid 10 (calls.drop 10) ++
          [{ id := cap, client_id := cid, memory_type := "insight",
             key := LongTermMemory.fullKey md5hex c.key c.value,
             value := c.value, source_analysis := c.key,
             created_at := c.now }],
        nextId := cap + 1 } := by
    rw [storeCalls_append, hdb1, storeCalls_singleton]
    have hrejc : LongTermMemory.rejectsRaw c.value = false :=
      hrej c (List.mem_append_right _ (by simp))
    have hdupc : (mkRows md5hex cid 0 calls).any (fun r =>
        r.client_id == cid &&
          r.key == LongTermMemory.fullKey md5hex c.key c.value) = false := by
      apply any_key_eq_false_of_forall
      intro r hr _
      obtain ⟨_, _, _, c', hc', _, hkey⟩ :=
        mem_mkRows md5hex cid calls 0 r hr
      rw [hkey]
      intro he
      exact hfkc (he ▸ List.mem_map_of_mem _ hc')
    rw [LongTermMemory.store, if_neg (by simp), if_neg (by simp [hrejc]),
      if_neg (by simp [hdupc])]
    rw [LongTermMemory.evictIfFull]
    dsimp only
    rw [filter_client_mkRows, mkRows_length, hlen,
      if_pos (Nat.le_refl cap)]
    have hsort : sortRowsAsc (mkRows md5hex cid 0 calls) =
        mkRows md5hex cid 0 calls :=
      sortRowsAsc_of_pairwise _ (mkRows_pairwise md5hex cid calls hsorted 0)
    rw [hsort]
    have hAB : mkRows md5hex cid 0 calls =
        mkRows md5hex cid 0 (calls.take 10) ++
          mkRows md5hex cid 10 (calls.drop 10) := by
      have h := mkRows_append md5hex cid (calls.take 10) (calls.drop 10) 0
      rw [List.take_append_drop] at h
      rw [h, h10]
    rw [hAB]
    have hvict : (((mkRows md5hex cid 0 (calls.take 10) ++
        mkRows md5hex cid 10 (calls.drop 10)).map (·.id)).take 10) =
        (mkRows md5hex cid 0 (calls.take 10)).map (·.id) := by
      rw [List.map_append]
      have hla : ((mkRows md5hex cid 0 (calls.take 10)).map (·.id)).length =
          10 := by
        rw [List.length_map, mkRows_length, h10]
      exact List.take_left' hla
    rw [hvict]
    have hfA : (mkRows md5hex cid 0 (calls.take 10)).filter (fun r =>
        ¬ ((mkRows md5hex cid 0 (calls.take 10)).map (·.id)).contains r.id) =
        [] := by
      rw [List.filter_eq_nil_iff]
      intro r hr
      simp [List.contains, List.elem_iff]
      exact ⟨r, hr, rfl⟩
    have hfB : (mkRows md5hex cid 10 (calls.drop 10)).filter (fun r =>
        ¬ ((mkRows md5hex cid 0 (calls.take 10)).map (·.id)).contains r.id) =
        mkRows md5hex cid 10 (calls.drop 10) := by
      rw [List.filter_eq_self]
      intro r hr
      have hge : 10 ≤ r.id := (mem_mkRows md5hex cid _ 10 r hr).2.1
      have hnot : r.id ∉ (mkRows md5hex cid 0 (calls.take 10)).map (·.id) := by
        intro hmem
        rcases List.mem_map.mp hmem with ⟨x, hx, he⟩
        have hlt : x.id < 10 := by
          have := (mem_mkRows md5hex cid _ 0 x hx).2.2.1
          rw [h10] at this
          omega
        omega
      simpa [List.contains, List.elem_iff] using hnot
    rw [List.filter_append, hfA, hfB, List.nil_append]
    have hconfB : (mkRows md5hex cid 10 (calls.drop 10)).any (fun r =>
        r.client_id == cid && r.memory_type == "insight" &&
          r.key == LongTermMemory.fullKey md5hex c.key c.value) = false := by
      apply conflict_any_false
      apply any_key_eq_false_of_forall
      intro r hr _
      obtain ⟨_, _, _, c', hc', _, hkey⟩ :=
        mem_mkRows md5hex cid (calls.drop 10) 10 r hr
      rw [hkey]
      intro he
      exact hfkc (he ▸ List.mem_map_of_mem _
        (List.drop_subset 10 calls hc'))
    rw [LongTermMemory.upsertInsight, if_neg (by simp [hconfB])]
  refine ⟨hfinal, ?_⟩
  rw [hfinal]
  dsimp only
  rw [List.filter_append, filter_client_mkRows]
  have hone : List.filter (fun r => r.client_id == cid)
      ([{ id := cap, client_id := cid, memory_type := "insight",
          key := LongTermMemory.fullKey md5hex c.key c.value,
          value := c.value, source_analysis := c.key,
          created_at := c.now }] : List LTRow) =
      ([{ id := cap, client_id := cid, memory_type := "insight",
          key := LongTermMemory.fullKey md5hex c.key c.value,
          value := c.value, source_analysis := c.key,
          created_at := c.now }] : List LTRow) := by
    simp
  rw [hone, List.length_append, mkRows_length, List.length_drop, hlen]
  simp only [List.length_cons, List.length_nil]
  omega

theorem C8_fifo_eviction_amended_witness :
    ((storeCalls (fun s => s) 12 {} "c" (callsW ++ [cW])).rows.filter
        (fun r => r.client_id == "c")).length = 12 - 9 :=
  (C8_fifo_eviction_amended (fun s => s) 12 "c" callsW cW (by decide)
    (by decide) (by decide) (by decide) (by decide)).2

end Integrations
